import Mathlib

/-!
Shallow embedding of the `claudebg` worktree/branch lifecycle tool
(`src/claudebg.py`, together with the legacy variant `src/main.py`), and
theorems settling the specification claims about it.

Python strings are modelled as `List Char`; the Python string methods the
source uses (`strip`, `lower`, `startswith`, `replace`, `split`, `in`) are
embedded as executable functions below.  The repository-scoped git
configuration is modelled as an association list of key/value pairs;
`git config key value` replaces any prior entry for the key, matching git.

The lifecycle operations (`intervene`, `spinout`, `destroy`) are embedded as
functions over an explicit repository state `St`, with `sys.exit(n)` modelled
as `Except.error (n, state)` (the state at the moment of exit is kept so that
theorems can inspect what was mutated before the exit).  External git commands
become state transitions; each mutating command also appends an event to a
trace so that temporal claims about the order of destructive steps can be
stated.  Read-only commands (`git worktree list`, `git status`, `git config`
reads, `git branch --merged`) do not change the state.
-/

namespace ClaudebgModel

/-- Python strings are modelled as lists of characters. -/
abbrev Str := List Char

/-- The characters Python `str.strip()` removes by default. -/
def isPySpace (c : Char) : Bool :=
  c == ' ' || c == '\t' || c == '\n' || c == '\r' || c == '\x0b' || c == '\x0c'

/-- Python `s.strip()`: drop whitespace from both ends. -/
def pyStrip (s : Str) : Str :=
  ((s.dropWhile isPySpace).reverse.dropWhile isPySpace).reverse

/-- Python `s.lower()` (ASCII data in this program). -/
def pyLower (s : Str) : Str := s.map Char.toLower

/-- Python `s.startswith(pat)`. -/
def pyStartsWith : Str → Str → Bool
  | _, [] => true
  | [], _ :: _ => false
  | c :: cs, p :: ps => c == p && pyStartsWith cs ps

/-- Python `pat in s` (substring test). -/
def pyContains (s pat : Str) : Bool :=
  match s with
  | [] => pat.isEmpty
  | _ :: cs => pyStartsWith s pat || pyContains cs pat

/-- Python `s.split(" ", 1)[1]`: everything after the first space.  The
source only evaluates this under a `startswith` guard that guarantees a
space is present; without one this total model returns `[]`. -/
def pySplit1Tail : Str → Str
  | [] => []
  | c :: cs => if c = ' ' then cs else pySplit1Tail cs

/-- Python `s.split("\n")`. -/
def pySplitNl : Str → List Str
  | [] => [[]]
  | c :: cs =>
    if c = '\n' then [] :: pySplitNl cs
    else
      match pySplitNl cs with
      | [] => [[c]]
      | l :: ls => (c :: l) :: ls

/-- Python `s.split("/")`. -/
def pySplitSlash : Str → List Str
  | [] => [[]]
  | c :: cs =>
    if c = '/' then [] :: pySplitSlash cs
    else
      match pySplitSlash cs with
      | [] => [[c]]
      | l :: ls => (c :: l) :: ls

/-- Python `s.split("/")[-1]`: the component after the last slash. -/
def afterLastSlash (s : Str) : Str := (pySplitSlash s).getLastD []

/-- Fuel-based worker for `pyReplace`; the fuel strictly dominates the
input length at every call, so the `0` case is never reached. -/
def pyReplaceAux (pat rep : Str) : Nat → Str → Str
  | 0, s => s
  | _ + 1, [] => if pat = [] then rep else []
  | fuel + 1, c :: cs =>
    if pat = [] then rep ++ c :: pyReplaceAux pat rep fuel cs
    else if pyStartsWith (c :: cs) pat then
      rep ++ pyReplaceAux pat rep fuel (List.drop (pat.length - 1) cs)
    else c :: pyReplaceAux pat rep fuel cs

/-- Python `s.replace(pat, rep)`: replace every (left-to-right,
non-overlapping) occurrence of `pat` in `s` by `rep`.  For an empty
pattern Python inserts `rep` around every character. -/
def pyReplace (pat rep s : Str) : Str := pyReplaceAux pat rep (s.length + 1) s

/-- A git branch name: nonempty and free of whitespace characters
(`git check-ref-format` rejects space and all control characters). -/
def validBranchName (s : Str) : Prop :=
  s ≠ [] ∧ ∀ c ∈ s, isPySpace c = false

instance (s : Str) : Decidable (validBranchName s) := by
  unfold validBranchName; infer_instance

/-! ## Repository-scoped configuration (`git config`)

`cfgGet` models reading a key (`None` when `git config` exits non-zero with
empty output), `cfgSet` models `git config key value` (replacing any prior
entry), `cfgUnset` models `git config --unset key`. -/

/-- A repository-scoped key/value configuration store. -/
abbrev Cfg := List (Str × Str)

/-- Read a config key. -/
def cfgGet (cfg : Cfg) (k : Str) : Option Str :=
  (cfg.find? (fun p => p.1 == k)).map (·.2)

/-- Write a config key, replacing any prior value. -/
def cfgSet (cfg : Cfg) (k v : Str) : Cfg :=
  (k, v) :: cfg.filter (fun p => !(p.1 == k))

/-- Unset a config key. -/
def cfgUnset (cfg : Cfg) (k : Str) : Cfg :=
  cfg.filter (fun p => !(p.1 == k))

/-! ## Branch-parent bookkeeping (`set_branch_parent` / `get_branch_parent`) -/

/-- The marker the tool prepends to the branch description. -/
def parentMarker : Str := "Parent branch: ".toList

/-- The config key `branch.<name>.description`. -/
def branchDescKey (b : Str) : Str :=
  "branch.".toList ++ b ++ ".description".toList

/-- `set_branch_parent` (claudebg.py lines 370-373): store
`"Parent branch: <parent>"` in the branch description. -/
def set_branch_parent (cfg : Cfg) (branch parent : Str) : Cfg :=
  cfgSet cfg (branchDescKey branch) (parentMarker ++ parent)

/-- `get_branch_parent` (claudebg.py lines 376-383): read the branch
description, and if it is nonempty after stripping and starts with the
marker, return the description with every occurrence of the marker
replaced by nothing, stripped. -/
def get_branch_parent (cfg : Cfg) (branch : Str) : Option Str :=
  match cfgGet cfg (branchDescKey branch) with
  | none => none
  | some v =>
    let d := pyStrip v
    if d ≠ [] then
      if pyStartsWith d parentMarker then some (pyStrip (pyReplace parentMarker [] d))
      else none
    else none

/-! ## Intervention metadata (`save` / `get` / `clear _intervene_metadata`) -/

/-- Config key for the intervened branch. -/
def kIntBranch : Str := "claudebg.lastintervene.branch".toList

/-- Config key for the original branch. -/
def kIntOrig : Str := "claudebg.lastintervene.originalbranch".toList

/-- Config key for the stashed flag. -/
def kIntStash : Str := "claudebg.lastintervene.stashed".toList

/-- The persisted record describing the most recent `intervene`. -/
structure InterveneMeta where
  intervened : Str
  original : Str
  stashed : Bool
  deriving DecidableEq

/-- `save_intervene_metadata` (claudebg.py lines 468-478); the `stashed`
bool is interpolated into the command as Python renders it: `True`/`False`. -/
def save_intervene_metadata (branch original : Str) (stashed : Bool) (cfg : Cfg) : Cfg :=
  cfgSet (cfgSet (cfgSet cfg kIntBranch branch) kIntOrig original) kIntStash
    (if stashed then "True".toList else "False".toList)

/-- `get_intervene_metadata` (claudebg.py lines 481-494): absent when the
branch key is unset or strips to empty; otherwise the other two keys are
read with `check=False` (an unset key yields empty output), stripped, and
the stashed flag compares the stripped, lowercased value to `"true"`. -/
def get_intervene_metadata (cfg : Cfg) : Option InterveneMeta :=
  match cfgGet cfg kIntBranch with
  | none => none
  | some bv =>
    if pyStrip bv = [] then none
    else some
      { intervened := pyStrip bv
        original := pyStrip ((cfgGet cfg kIntOrig).getD [])
        stashed := pyLower (pyStrip ((cfgGet cfg kIntStash).getD [])) == "true".toList }

/-- `clear_intervene_metadata` (claudebg.py lines 497-501). -/
def clear_intervene_metadata (cfg : Cfg) : Cfg :=
  cfgUnset (cfgUnset (cfgUnset cfg kIntBranch) kIntOrig) kIntStash

/-! ## Worktree registry: parsing `git worktree list --porcelain`

Both source files scan the porcelain output line by line, remembering the
most recent `worktree <path>` line and acting on a following
`branch <ref>` line.  A Python truthiness test (`and current_worktree`)
guards the branch case, so an empty remembered path is skipped. -/

/-- Truthiness of an optional string, as Python evaluates it. -/
def optTruthy (o : Option Str) : Bool :=
  match o with
  | none => false
  | some s => !s.isEmpty

/-- Loop of `get_worktree_path` (claudebg.py lines 73-85), carrying the
current `worktree` path.  On a matching branch line the path is returned
only when it differs from the main checkout root; otherwise the
remembered path is cleared and scanning continues. -/
def gwpLoop (gitRoot bn : Str) : List Str → Option Str → Option Str
  | [], _ => none
  | line :: rest, cur =>
    if pyStartsWith line ("worktree ".toList) then
      gwpLoop gitRoot bn rest (some (pySplit1Tail line))
    else if pyStartsWith line ("branch ".toList) && optTruthy cur then
      if pySplit1Tail line == "refs/heads/".toList ++ bn then
        if cur == some gitRoot then gwpLoop gitRoot bn rest none
        else cur
      else gwpLoop gitRoot bn rest none
    else gwpLoop gitRoot bn rest cur

/-- `get_worktree_path` (claudebg.py lines 65-85): parse the stripped
porcelain output and resolve a branch to its worktree path, never
returning the main checkout root. -/
def get_worktree_path (porcelain gitRoot bn : Str) : Option Str :=
  gwpLoop gitRoot bn (pySplitNl (pyStrip porcelain)) none

/-- Loop of `get_all_worktrees` (claudebg.py lines 96-115): collect
`(branch, path)` pairs for entries bound to a `refs/heads/` reference,
excluding the entry whose path is the main checkout root. -/
def gawLoop (gitRoot : Str) : List Str → Option Str → List (Str × Str)
  | [], _ => []
  | line :: rest, cur =>
    if pyStartsWith line ("worktree ".toList) then
      gawLoop gitRoot rest (some (pySplit1Tail line))
    else if pyStartsWith line ("branch ".toList) && optTruthy cur then
      (if pyStartsWith (pySplit1Tail line) ("refs/heads/".toList) then
        (if (cur.getD []) == gitRoot then []
         else [(pyReplace ("refs/heads/".toList) [] (pySplit1Tail line), cur.getD [])])
      else []) ++ gawLoop gitRoot rest none
    else gawLoop gitRoot rest cur

/-- `get_all_worktrees` (claudebg.py lines 88-115). -/
def get_all_worktrees (porcelain gitRoot : Str) : List (Str × Str) :=
  gawLoop gitRoot (pySplitNl (pyStrip porcelain)) none

namespace MainPy

/-- Loop of the legacy `get_worktree_path` (main.py lines 27-35): same scan
but with no exclusion of the main checkout root. -/
def gwpLoop (bn : Str) : List Str → Option Str → Option Str
  | [], _ => none
  | line :: rest, cur =>
    if pyStartsWith line ("worktree ".toList) then
      gwpLoop bn rest (some (pySplit1Tail line))
    else if pyStartsWith line ("branch ".toList) && optTruthy cur then
      if pySplit1Tail line == "refs/heads/".toList ++ bn then cur
      else gwpLoop bn rest none
    else gwpLoop bn rest cur

/-- Legacy `get_worktree_path` (main.py lines 22-37). -/
def get_worktree_path (porcelain bn : Str) : Option Str :=
  gwpLoop bn (pySplitNl (pyStrip porcelain)) none

end MainPy

/-! ## Lifecycle state machine

The repository state the lifecycle operations act on.  Working-tree
uncommitted state is modelled as `Option Str`: `none` means clean,
`some d` means `git status --porcelain` is non-empty and the staged diff
after `git add -A` serializes to `d` (`d = []` captures the corner where
changes exist — e.g. only empty directories — but the diff is empty).
Patch files on disk are keyed by the order `tempfile` allocated them.
`mergedPairs` abstracts the read-only `git branch --merged` query:
`(b, t)` is a member iff `is_branch_merged b t` reports true. -/

/-- Observable events of the mutating external commands (plus two
read observations, `captureEmpty` and `cleanDir`, marking that the capture
step determined there was nothing to store for a directory). -/
inductive Ev where
  | stashPush (msg : Str)
  | stashPop
  | patchWrite (dir : Str) (id : Nat) (content : Str)
  | captureEmpty (dir : Str)
  | cleanDir (dir : Str)
  | reset (dir : Str)
  | wtRemove (path : Str)
  | wtAdd (branch path : Str)
  | checkout (branch : Str)
  | checkoutNew (branch : Str)
  | applyPatch (dir : Str) (id : Nat) (ok : Bool)
  | unlinkPatch (id : Nat)
  | patchReported (id : Nat)
  | branchDelete (branch : Str)
  | remoteDelete (branch : Str)
  | execWorkspace
  deriving DecidableEq

/-- A satellite worktree: bound branch, filesystem path, uncommitted state. -/
structure WT where
  branch : Str
  path : Str
  work : Option Str
  deriving DecidableEq

/-- A stash entry: message and stashed content (newest first in `St.stash`). -/
structure StashEntry where
  msg : Str
  content : Str
  deriving DecidableEq

/-- The repository state. -/
structure St where
  /-- Whether the process was started inside a satellite worktree. -/
  inWorktree : Bool
  /-- Path of the main checkout. -/
  gitRoot : Str
  /-- Branch checked out in the main checkout. -/
  currentBranch : Str
  /-- Local branches, in `git branch` listing order. -/
  branches : List Str
  /-- Satellite worktrees. -/
  worktrees : List WT
  /-- Tracked uncommitted changes of the main checkout (what `git stash
  push` without `-u` saves and `git diff` shows for tracked files). -/
  mainWork : Option Str
  /-- Untracked files of the main checkout (`[]` = none).  They show in
  `git status --porcelain`, survive `git stash push` and `git checkout`,
  and are swept into a capture only through its `git add -A` staging. -/
  mainUnt : Str := []
  /-- The stash, newest entry first. -/
  stash : List StashEntry
  /-- Repository-scoped configuration. -/
  cfg : Cfg
  /-- Remote-tracking branch names (e.g. `origin/main`). -/
  remoteBranches : List Str
  /-- Abstraction of `git branch --merged`: the pairs `(b, t)` with `b` merged into `t`. -/
  mergedPairs : List (Str × Str)
  /-- Patch files on disk, keyed by allocation order. -/
  disk : List (Nat × Str)
  /-- Next `tempfile` key. -/
  nextPatch : Nat
  /-- Trace of events. -/
  trace : List Ev
  deriving DecidableEq

/-- Append an event to the trace. -/
def emit (e : Ev) (st : St) : St := { st with trace := st.trace ++ [e] }

/-- Resolve a branch to its worktree (the state-level counterpart of
`get_worktree_path`; worktree paths are nonempty absolute paths, so the
Python truthiness test on the result is a `none` test). -/
def findWorktree (st : St) (b : Str) : Option WT :=
  st.worktrees.find? (fun w => w.branch == b)

/-- `has_unstaged_changes` (claudebg.py lines 461-464) for a worktree with
uncommitted state `w`: `git status --porcelain` is non-empty. -/
def has_unstaged_changes (w : Option Str) : Bool := w.isSome

/-- `has_unstaged_changes` for the main checkout: `git status --porcelain`
reports tracked changes and untracked files alike. -/
def mainDirty (st : St) : Bool :=
  has_unstaged_changes st.mainWork || !st.mainUnt.isEmpty

/-- `branch_exists` (claudebg.py lines 118-123). -/
def branch_exists (st : St) (b : Str) : Bool := st.branches.contains b

/-- `get_main_branch` (claudebg.py lines 386-395): preference order
`main`, `master`, `develop`; else the first remote-tracking branch,
keeping the part after the last slash. -/
def get_main_branch (st : St) : Option Str :=
  if branch_exists st ("main".toList) then some ("main".toList)
  else if branch_exists st ("master".toList) then some ("master".toList)
  else if branch_exists st ("develop".toList) then some ("develop".toList)
  else
    match st.remoteBranches with
    | [] => none
    | r :: _ => some (afterLastSlash r)

/-- `is_branch_merged` (claudebg.py lines 398-410), abstracted by the
`mergedPairs` oracle of the state (the query itself is read-only). -/
def is_branch_merged (st : St) (b t : Str) : Bool :=
  st.mergedPairs.contains (b, t)

/-- `has_remote_branch` (claudebg.py lines 413-416). -/
def has_remote_branch (st : St) (b : Str) : Bool :=
  st.remoteBranches.any (fun r => afterLastSlash r == b)

/-- The stash message used by `stash_changes` (claudebg.py line 511); it is
the marker `spinout` later searches the stash list for. -/
def stashMarker : Str := "claudebg intervene: stashed changes".toList

/-- `git stash push -m msg` (claudebg.py line 511, run without `-u`):
move only the main checkout's *tracked* uncommitted changes into a new
newest stash entry; untracked files stay in the working tree.  With no
tracked changes the command saves nothing ("No local changes to save")
and creates no entry. -/
def stashPushS (msg : Str) (st : St) : St :=
  emit (Ev.stashPush msg)
    (if st.mainWork.isSome then
      { st with stash := ⟨msg, st.mainWork.getD []⟩ :: st.stash, mainWork := none }
    else st)

/-- Applying a unified diff `p` on top of existing uncommitted state. -/
def applyDelta (cur : Option Str) (p : Str) : Option Str :=
  match cur with
  | none => some p
  | some q => some (q ++ p)

/-- Write patch content to a fresh durable temp file; returns its key. -/
def writePatch (dir content : Str) (st : St) : St × Nat :=
  (emit (Ev.patchWrite dir st.nextPatch content)
    { st with disk := (st.nextPatch, content) :: st.disk, nextPatch := st.nextPatch + 1 },
   st.nextPatch)

/-- `os.path.exists` for a patch file. -/
def diskHas (st : St) (id : Nat) : Bool := st.disk.any (fun p => p.1 == id)

/-- Content of a patch file on disk. -/
def diskGet (st : St) (id : Nat) : Str :=
  ((st.disk.find? (fun p => p.1 == id)).map (·.2)).getD []

/-- `os.unlink` of a patch file. -/
def unlinkPatchFile (id : Nat) (st : St) : St :=
  emit (Ev.unlinkPatch id) { st with disk := st.disk.filter (fun p => !(p.1 == id)) }

/-- `git reset --hard` in the main checkout.  The source runs it right
after `git add -A`, so the formerly untracked files are in the index and
the reset removes them too: the checkout ends fully clean. -/
def resetMain (st : St) : St :=
  emit (Ev.reset st.gitRoot) { st with mainWork := none, mainUnt := [] }

/-- `git reset --hard` inside the worktree at `p`. -/
def resetWt (p : Str) (st : St) : St :=
  emit (Ev.reset p)
    { st with worktrees :=
        st.worktrees.map (fun w => if w.path == p then { w with work := none } else w) }

/-- `git worktree remove --force <path>`. -/
def gitWorktreeRemove (p : Str) (st : St) : St :=
  emit (Ev.wtRemove p) { st with worktrees := st.worktrees.filter (fun w => !(w.path == p)) }

/-- Successful `git checkout <b>` (the guard `branch_exists` sits at each
call site; `run_command` exits 1 when the branch does not exist).  At
every checkout site of the source the main checkout has no tracked
changes; untracked files may be present and ride along unchanged, as they
do under the real command. -/
def checkoutS (b : Str) (st : St) : St :=
  emit (Ev.checkout b) { st with currentBranch := b }

/-- Successful `git checkout -b <b>`: create the branch and switch to it
(the branch must not already exist; guard at the call site). -/
def checkoutNewS (b : Str) (st : St) : St :=
  emit (Ev.checkoutNew b) { st with branches := st.branches ++ [b], currentBranch := b }

/-- Guard of `git worktree add <p> <b>`: the branch exists and is checked
out nowhere (neither the main checkout nor another worktree). -/
def wtAddOk (b : Str) (st : St) : Bool :=
  branch_exists st b && !(st.currentBranch == b) && (findWorktree st b).isNone

/-- Successful `git worktree add <p> <b>`: the new worktree starts clean. -/
def wtAddS (b p : Str) (st : St) : St :=
  emit (Ev.wtAdd b p) { st with worktrees := ⟨b, p, none⟩ :: st.worktrees }

/-- Deterministic worktree location: the `<repo>-worktrees/<branch>`
container derived from the repository root (claudebg.py lines 763-768). -/
def mkWorktreePath (root b : Str) : Str := root ++ "-worktrees/".toList ++ b

/-- Tail of `intervene_worktree` after the apply step: persist the
`InterventionRecord` and handle the session prompt (claudebg.py lines
647-671; on yes the process image is replaced, modelled as a trace
event). -/
def interveneFinish (B original : Str) (stashed sessionYes : Bool) (st6 : St) :
    Except (Nat × St) St :=
  let st7 := { st6 with cfg := save_intervene_metadata B original stashed st6.cfg }
  .ok (if sessionYes then emit Ev.execWorkspace st7 else st7)

/-- Body of `intervene_worktree` after the stash step (claudebg.py lines
592-671): capture and reset the worktree, remove it, check the branch out
in the main checkout, and apply the captured patch there. -/
def interveneTail (B original : Str) (stashed applyOk sessionYes : Bool)
    (wt : WT) (st1 : St) : Except (Nat × St) St :=
  let cap : St × Option Nat :=
    if has_unstaged_changes wt.work then
      if wt.work.getD [] ≠ [] then
        let w := writePatch wt.path (wt.work.getD []) st1
        (resetWt wt.path w.1, some w.2)
      else
        (resetWt wt.path (emit (Ev.captureEmpty wt.path) st1), none)
    else (emit (Ev.cleanDir wt.path) st1, none)
  let st3 := gitWorktreeRemove wt.path cap.1
  if branch_exists st3 B then
    let st4 := checkoutS B st3
    match cap.2 with
    | none => interveneFinish B original stashed sessionYes st4
    | some id =>
      if diskHas st4 id then
        if applyOk then
          -- try: apply succeeds; finally: unlink the patch file
          interveneFinish B original stashed sessionYes
            (unlinkPatchFile id (emit (Ev.applyPatch st4.gitRoot id true)
              { st4 with mainWork := applyDelta st4.mainWork (diskGet st4 id) }))
        else
          -- except SystemExit: report the path, re-exit; the finally
          -- block still unlinks the patch file before the exit
          .error (1, unlinkPatchFile id
            (emit (Ev.patchReported id) (emit (Ev.applyPatch st4.gitRoot id false) st4)))
      else interveneFinish B original stashed sessionYes st4
  else .error (1, st3)

/-- `intervene_worktree` (claudebg.py lines 552-671).  `stashYes` is the
answer to the interactive stash prompt, `applyOk` the outcome of
`git apply` in the main checkout. -/
def intervene (B : Str) (stashYes applyOk sessionYes : Bool) (st : St) :
    Except (Nat × St) St :=
  if st.inWorktree then .error (1, st)
  else
    match findWorktree st B with
    | none => .error (1, st)
    | some wt =>
      -- declining the stash prompt aborts before any mutation
      if mainDirty st && !stashYes then .error (1, st)
      else
        interveneTail B st.currentBranch (mainDirty st)
          applyOk sessionYes wt
          (if mainDirty st then stashPushS stashMarker st else st)

/-- The disposable branch name `spinout` creates when no other branch is
available to park the main checkout on. -/
def tempSpinoutBranch : Str := "temp-spinout-branch".toList

/-- The plain temporary-branch choice of `spinout` (claudebg.py lines
743-753): the discovered main branch if it differs from the current
branch, else the first other nonempty local branch. -/
def plainTempChoice (st : St) (cur : Str) : Option Str :=
  match get_main_branch st with
  | some mb =>
    if mb ≠ cur then some mb
    else st.branches.find? (fun b => !b.isEmpty && !(b == cur))
  | none => st.branches.find? (fun b => !b.isEmpty && !(b == cur))

/-- Record-driven restore tail of `spinout_worktree` (claudebg.py lines
800-823): pop the marker-tagged stash entry when one exists (warn
otherwise) and clear the persisted record. -/
def spinoutRestore (attachYes : Bool) (m : InterveneMeta) (st5 : St) :
    Except (Nat × St) St :=
  let st6 :=
    if m.stashed then
      match st5.stash.find? (fun e => pyContains e.msg stashMarker) with
      | some e =>
        emit Ev.stashPop
          { st5 with mainWork := applyDelta st5.mainWork e.content,
                     stash := st5.stash.eraseP (fun x => pyContains x.msg stashMarker) }
      | none => st5  -- warn only; manual recovery is left to the user
    else st5
  let st7 := { st6 with cfg := clear_intervene_metadata st6.cfg }
  .ok (if attachYes then emit Ev.execWorkspace st7 else st7)

/-- Patch application inside the freshly created worktree (claudebg.py
lines 773-790): a failure does not abort the operation, and the finally
block unlinks the patch file in both outcomes. -/
def spinoutApplyStep (applyOk : Bool) (wtDir : Str) (cap2 : Option Nat) (st3 : St) : St :=
  match cap2 with
  | none => st3
  | some id =>
    if diskHas st3 id then
      if applyOk then
        unlinkPatchFile id (emit (Ev.applyPatch wtDir id true)
          { st3 with worktrees := st3.worktrees.map (fun w =>
              if w.path == wtDir then { w with work := applyDelta w.work (diskGet st3 id) }
              else w) })
      else
        unlinkPatchFile id
          (emit (Ev.patchReported id) (emit (Ev.applyPatch wtDir id false) st3))
    else st3

/-- Plain ending of `spinout_worktree` (claudebg.py lines 824-840): when
no record was used, delete the disposable temporary branch if one was
created (after parking the main checkout on the discovered main branch). -/
def spinoutPlainEnd (attachYes : Bool) (tempB : Str) (st4 : St) :
    Except (Nat × St) St :=
  if tempB == tempSpinoutBranch then
    match get_main_branch st4 with
    | some mb =>
      if branch_exists st4 mb then
        let st5 := checkoutS mb st4
        let st6 := emit (Ev.branchDelete tempSpinoutBranch)
          { st5 with branches := st5.branches.erase tempSpinoutBranch }
        .ok (if attachYes then emit Ev.execWorkspace st6 else st6)
      else .error (1, st4)
    | none => .ok (if attachYes then emit Ev.execWorkspace st4 else st4)
  else .ok (if attachYes then emit Ev.execWorkspace st4 else st4)

/-- Worktree creation followed by the patch application inside it. -/
def spinoutWtApply (applyOk : Bool) (cur : Str) (cap2 : Option Nat) (st2 : St) : St :=
  spinoutApplyStep applyOk (mkWorktreePath st2.gitRoot cur) cap2
    (wtAddS cur (mkWorktreePath st2.gitRoot cur) st2)

/-- Tail of `spinout_worktree` after the main checkout was parked on
`tempB` (claudebg.py lines 763-867): create the worktree, apply the
captured patch inside it, then either run the record-driven restore or
the plain ending. -/
def spinoutTail (applyOk attachYes : Bool) (cur tempB : Str)
    (md : Option InterveneMeta) (cap2 : Option Nat) (st2 : St) :
    Except (Nat × St) St :=
  if wtAddOk cur st2 then
    match md with
    | some m =>
      if tempB ≠ m.original then
        if branch_exists (spinoutWtApply applyOk cur cap2 st2) m.original then
          spinoutRestore attachYes m
            (checkoutS m.original (spinoutWtApply applyOk cur cap2 st2))
        else .error (1, spinoutWtApply applyOk cur cap2 st2)
      else spinoutRestore attachYes m (spinoutWtApply applyOk cur cap2 st2)
    | none => spinoutPlainEnd attachYes tempB (spinoutWtApply applyOk cur cap2 st2)
  else .error (1, st2)

/-- `spinout_worktree` (claudebg.py lines 674-867).  `applyOk` is the
outcome of `git apply` inside the new worktree, `attachYes` the final
attach prompt. -/
def spinout (applyOk attachYes : Bool) (st : St) : Except (Nat × St) St :=
  if st.inWorktree then .error (1, st)
  else
    let cur := st.currentBranch
    -- load the record; discard it when the current branch is not the
    -- intervened branch (claudebg.py lines 699-703)
    let md : Option InterveneMeta :=
      match get_intervene_metadata st.cfg with
      | some m => if cur ≠ m.intervened then none else some m
      | none => none
    if (findWorktree st cur).isSome then .error (1, st)
    else
      -- capture (claudebg.py lines 713-735): `git add -A` stages tracked
      -- changes and untracked files alike, so the `git diff --cached`
      -- patch holds both
      let cap : St × Option Nat :=
        if mainDirty st then
          if st.mainWork.getD [] ++ st.mainUnt ≠ [] then
            let w := writePatch st.gitRoot (st.mainWork.getD [] ++ st.mainUnt) st
            (resetMain w.1, some w.2)
          else (resetMain (emit (Ev.captureEmpty st.gitRoot) st), none)
        else (st, none)
      let st1 := cap.1
      -- choose the branch to park the main checkout on (Python falsiness:
      -- both a missing and an empty choice fall back to the temp branch)
      let tempRaw : Str :=
        (match md with
         | some m => if m.original ≠ cur then some m.original else plainTempChoice st1 cur
         | none => plainTempChoice st1 cur).getD []
      if tempRaw = [] then
        if branch_exists st1 tempSpinoutBranch then .error (1, st1)
        else spinoutTail applyOk attachYes cur tempSpinoutBranch md cap.2
          (checkoutNewS tempSpinoutBranch st1)
      else
        if branch_exists st1 tempRaw then
          spinoutTail applyOk attachYes cur tempRaw md cap.2 (checkoutS tempRaw st1)
        else .error (1, st1)

/-- Parent resolution of `destroy_worktree` (claudebg.py lines 877-890):
the recorded parent if present and nonempty, else the discovered main
branch when that is nonempty. -/
def resolvedParent (st : St) (B : Str) : Option Str :=
  let recorded := (get_branch_parent st.cfg B).getD []
  if recorded = [] then
    match get_main_branch st with
    | none => none
    | some mb => if mb = [] then none else some mb
  else some recorded

/-- `destroy_worktree` (claudebg.py lines 870-922).  The safe local branch
deletion (`git branch -d`) is modelled as succeeding; its additional
merged-into-HEAD gate is a git-internal check past the tool's own gate. -/
def destroy (B : Str) (force : Bool) (st : St) : Except (Nat × St) St :=
  match findWorktree st B with
  | none => .error (1, st)
  | some wt =>
    match resolvedParent st B with
    | none => .error (1, st)
    | some parent =>
      if !force && !(is_branch_merged st B parent) then .error (1, st)
      else
        let st1 := gitWorktreeRemove wt.path st
        let st2 := emit (Ev.branchDelete B) { st1 with branches := st1.branches.erase B }
        let st3 :=
          if has_remote_branch st2 B then
            emit (Ev.remoteDelete B)
              { st2 with remoteBranches :=
                  st2.remoteBranches.filter (fun r => !(afterLastSlash r == B)) }
          else st2
        .ok st3

/-- Final state of a run, whether it returned or exited. -/
def finalStOf (r : Except (Nat × St) St) : St :=
  match r with
  | .ok s => s
  | .error e => e.2

/-- Exit code of a run (`none` when the operation returned normally). -/
def exitCodeOf (r : Except (Nat × St) St) : Option Nat :=
  match r with
  | .ok _ => none
  | .error e => some e.1

/-! ## Trace predicates for the temporal claim

`capFor d` recognises the events witnessing that the capture step for
directory `d` durably stored a patch or found the diff empty;
`capOrCleanFor d` additionally accepts the observation that `d` had no
uncommitted changes at all.  `trOk` checks a whole trace: every `reset`
must be preceded by a capture-completion event for the same directory, and
every worktree removal by a capture-completion or clean observation for
the removed path. -/

/-- The capture step for `d` stored a patch or found the diff empty. -/
def capFor (d : Str) : Ev → Bool
  | Ev.patchWrite d2 _ _ => d2 == d
  | Ev.captureEmpty d2 => d2 == d
  | _ => false

/-- As `capFor`, or the directory was observed clean. -/
def capOrCleanFor (d : Str) : Ev → Bool
  | Ev.patchWrite d2 _ _ => d2 == d
  | Ev.captureEmpty d2 => d2 == d
  | Ev.cleanDir d2 => d2 == d
  | _ => false

/-- Guard for one event given the events already seen. -/
def destructiveGuard (seen : List Ev) : Ev → Bool
  | Ev.reset d => seen.any (capFor d)
  | Ev.wtRemove p => seen.any (capOrCleanFor p)
  | _ => true

/-- Check a trace left to right, accumulating the seen events. -/
def trOk : List Ev → List Ev → Bool
  | _, [] => true
  | seen, e :: rest => destructiveGuard seen e && trOk (seen ++ [e]) rest

/-- Events that are not data-loss-prone (everything except a hard reset
and a worktree removal passes `destructiveGuard` unconditionally). -/
def notDestructive (e : Ev) : Bool :=
  match e with
  | Ev.reset _ => false
  | Ev.wtRemove _ => false
  | _ => true

/-! ## Concrete states used by witnesses and counterexamples -/

/-- Repository state for exercising a failing patch apply in `intervene`:
main checkout clean on `main`, worktree for `b` dirty. -/
def c1StI : St :=
  { inWorktree := false, gitRoot := "/r".toList, currentBranch := "main".toList
    branches := ["main".toList, "b".toList]
    worktrees := [⟨"b".toList, "/w/b".toList, some ("d".toList)⟩]
    mainWork := none, stash := [], cfg := [], remoteBranches := []
    mergedPairs := [], disk := [], nextPatch := 0, trace := [] }

/-- Repository state for exercising a failing patch apply in `spinout`:
main checkout dirty on `b`, no worktrees, no intervention record. -/
def c1StS : St :=
  { inWorktree := false, gitRoot := "/r".toList, currentBranch := "b".toList
    branches := ["main".toList, "b".toList]
    worktrees := [], mainWork := some ("d".toList), stash := [], cfg := []
    remoteBranches := [], mergedPairs := [], disk := [], nextPatch := 0, trace := [] }

/-- Repository state with a worktree for an unmerged branch `b` whose
recorded parent is `main`. -/
def c2St : St :=
  { inWorktree := false, gitRoot := "/r".toList, currentBranch := "main".toList
    branches := ["main".toList, "b".toList]
    worktrees := [⟨"b".toList, "/w/b".toList, none⟩]
    mainWork := none, stash := []
    cfg := [(branchDescKey ("b".toList), ("Parent branch: main".toList))]
    remoteBranches := ["origin/b".toList], mergedPairs := [], disk := []
    nextPatch := 0, trace := [] }

/-- Repository state for the temporal witness: dirty worktree for `b`. -/
def c4St : St :=
  { inWorktree := false, gitRoot := "/r".toList, currentBranch := "main".toList
    branches := ["main".toList, "b".toList]
    worktrees := [⟨"b".toList, "/w/b".toList, some ("d".toList)⟩]
    mainWork := none, stash := [], cfg := [], remoteBranches := []
    mergedPairs := [], disk := [], nextPatch := 0, trace := [] }

/-- Repository state of a process started inside a satellite worktree. -/
def c5St : St :=
  { inWorktree := true, gitRoot := "/w/b".toList, currentBranch := "b".toList
    branches := ["main".toList, "b".toList]
    worktrees := [⟨"b".toList, "/w/b".toList, none⟩]
    mainWork := none, stash := [], cfg := [], remoteBranches := []
    mergedPairs := [], disk := [], nextPatch := 0, trace := [] }

/-- Repository state with a persisted record for branch `b` (original
`main`) while the main checkout sits on an unrelated branch `c`. -/
def c6St : St :=
  { inWorktree := false, gitRoot := "/r".toList, currentBranch := "c".toList
    branches := ["main".toList, "c".toList]
    worktrees := [], mainWork := none, stash := []
    cfg := [(kIntBranch, "b".toList), (kIntOrig, "main".toList), (kIntStash, "False".toList)]
    remoteBranches := [], mergedPairs := [], disk := [], nextPatch := 0, trace := [] }

/-- Repository state for the intervention-record preservation witness:
a record from an earlier intervene is present, the worktree for `b` is
dirty, and the apply step will fail. -/
def c9St : St :=
  { inWorktree := false, gitRoot := "/r".toList, currentBranch := "main".toList
    branches := ["main".toList, "b".toList]
    worktrees := [⟨"b".toList, "/w/b".toList, some ("d".toList)⟩]
    mainWork := none, stash := []
    cfg := [(kIntBranch, "old".toList), (kIntOrig, "main".toList), (kIntStash, "True".toList)]
    remoteBranches := [], mergedPairs := [], disk := [], nextPatch := 0, trace := [] }

/-- Porcelain output whose first (main checkout) entry is on `main`. -/
def c8Porc : Str :=
  "worktree /r\nHEAD 1111111111111111111111111111111111111111\nbranch refs/heads/main".toList

/-- Porcelain output with the main checkout on `main` and one satellite
worktree bound to `b`. -/
def c8PorcTwo : Str :=
  ("worktree /r\nHEAD 1111111111111111111111111111111111111111\nbranch refs/heads/main\n\n" ++
   "worktree /w/b\nHEAD 2222222222222222222222222222222222222222\nbranch refs/heads/b").toList

/-- C3 counterexample state: the main checkout on `main` is dirty with an
untracked file (`mainUnt = "u"`, no tracked changes), and a worktree for
`b` carries uncommitted content `p`. -/
def c3Cex : St :=
  { inWorktree := false, gitRoot := "/r".toList, currentBranch := "main".toList
    branches := ["main".toList, "b".toList]
    worktrees := [⟨"b".toList, "/w/b".toList, some ("p".toList)⟩]
    mainWork := none, mainUnt := "u".toList, stash := [], cfg := []
    remoteBranches := [], mergedPairs := [], disk := [], nextPatch := 0, trace := [] }

/-- A configuration whose stashed key carries surrounding whitespace. -/
def c10Cex : Cfg := [(kIntBranch, "b".toList), (kIntStash, "true ".toList)]

/-- The record `get_intervene_metadata` produces on `c10Cex`. -/
def c10Rec : InterveneMeta :=
  { intervened := "b".toList, original := [], stashed := true }

/-- Claim C10 exactly as stated: absent iff the intervened-branch key is
unset or empty, and the stashed field compares the stored string
lowercased (with no stripping) to `"true"`. -/
def c10ClaimAt (cfg : Cfg) : Prop :=
  (get_intervene_metadata cfg = none ↔
    (cfgGet cfg kIntBranch = none ∨ cfgGet cfg kIntBranch = some [])) ∧
  ∀ r, get_intervene_metadata cfg = some r →
    r.stashed = (pyLower ((cfgGet cfg kIntStash).getD []) == "true".toList)

/-! ## String lemmas -/

theorem pyStartsWith_append_self (p t : Str) : pyStartsWith (p ++ t) p = true := by
  induction p with
  | nil => cases t <;> simp [pyStartsWith]
  | cons c cs ih => simpa [pyStartsWith] using ih

theorem pyStartsWith_mem {s pat : Str} (h : pyStartsWith s pat = true) :
    ∀ a ∈ pat, a ∈ s := by
  induction pat generalizing s with
  | nil => simp
  | cons p ps ih =>
    cases s with
    | nil => simp [pyStartsWith] at h
    | cons c cs =>
      simp only [pyStartsWith, Bool.and_eq_true, beq_iff_eq] at h
      intro a ha
      rcases List.mem_cons.mp ha with rfl | ha
      · simp [h.1]
      · exact List.mem_cons_of_mem _ (ih h.2 a ha)

theorem pyStartsWith_exists {s pat : Str} (h : pyStartsWith s pat = true) :
    ∃ t, s = pat ++ t := by
  induction pat generalizing s with
  | nil => exact ⟨s, rfl⟩
  | cons p ps ih =>
    cases s with
    | nil => simp [pyStartsWith] at h
    | cons c cs =>
      simp only [pyStartsWith, Bool.and_eq_true, beq_iff_eq] at h
      obtain ⟨t, ht⟩ := ih h.2
      exact ⟨t, by simp [h.1, ht]⟩

theorem pyStartsWith_append_both (pre t pat : Str) :
    pyStartsWith (pre ++ t) (pre ++ pat) = pyStartsWith t pat := by
  induction pre with
  | nil => rfl
  | cons c cs ih => simpa [pyStartsWith] using ih

theorem dropWhile_of_head_not_space (c : Char) (cs : Str) (h : isPySpace c = false) :
    (c :: cs).dropWhile isPySpace = c :: cs := by
  simp [List.dropWhile_cons, h]

theorem pyStrip_of_no_space {s : Str} (h : ∀ c ∈ s, isPySpace c = false) :
    pyStrip s = s := by
  unfold pyStrip
  cases s with
  | nil => simp
  | cons c cs =>
    rw [dropWhile_of_head_not_space c cs (h c (List.mem_cons_self c cs))]
    cases hr : (c :: cs).reverse with
    | nil => simp at hr
    | cons a as =>
      have ha : a ∈ c :: cs := by
        rw [← List.mem_reverse, hr]; exact List.mem_cons_self a as
      rw [dropWhile_of_head_not_space a as (h a ha), ← hr, List.reverse_reverse]

theorem pyStrip_marker_append {par : Str} (h : validBranchName par) :
    pyStrip (parentMarker ++ par) = parentMarker ++ par := by
  obtain ⟨hne, hws⟩ := h
  unfold pyStrip
  have h0 : parentMarker ++ par = 'P' :: ("arent branch: ".toList ++ par) := rfl
  have h1 : (parentMarker ++ par).dropWhile isPySpace = parentMarker ++ par := by
    rw [h0, dropWhile_of_head_not_space _ _ (by decide), ← h0]
  rw [h1]
  cases hpr : par.reverse with
  | nil => exact absurd (List.reverse_eq_nil_iff.mp hpr) hne
  | cons b bs =>
    have hb : b ∈ par := by
      rw [← List.mem_reverse, hpr]; exact List.mem_cons_self b bs
    have hrev : (parentMarker ++ par).reverse = b :: (bs ++ parentMarker.reverse) := by
      rw [List.reverse_append, hpr]; rfl
    rw [hrev, dropWhile_of_head_not_space b _ (hws b hb), ← hrev, List.reverse_reverse]

theorem pyReplaceAux_irrel (pat rep : Str) :
    ∀ (f1 : Nat) (s : Str) (f2 : Nat), s.length < f1 → s.length < f2 →
      pyReplaceAux pat rep f1 s = pyReplaceAux pat rep f2 s := by
  intro f1
  induction f1 with
  | zero => intro s f2 h1 _; exact absurd h1 (Nat.not_lt_zero _)
  | succ f ih =>
    intro s f2 h1 h2
    cases f2 with
    | zero => exact absurd h2 (Nat.not_lt_zero _)
    | succ g =>
      cases s with
      | nil => rfl
      | cons c cs =>
        have hcs : cs.length < f := by simpa using h1
        have hcs2 : cs.length < g := by simpa using h2
        have hdrop : (List.drop (pat.length - 1) cs).length ≤ cs.length := by
          simp [List.length_drop]
        by_cases hp : pat = []
        · simp only [pyReplaceAux, if_pos hp, ih cs g hcs hcs2]
        · by_cases hsw : pyStartsWith (c :: cs) pat = true
          · simp only [pyReplaceAux, if_neg hp, if_pos hsw,
              ih _ g (lt_of_le_of_lt hdrop hcs) (lt_of_le_of_lt hdrop hcs2)]
          · simp only [pyReplaceAux, if_neg hp, if_neg hsw, ih cs g hcs hcs2]

theorem pyReplace_nil (pat rep : Str) :
    pyReplace pat rep [] = if pat = [] then rep else [] := rfl

theorem pyReplace_cons (pat rep : Str) (c : Char) (cs : Str) :
    pyReplace pat rep (c :: cs) =
      if pat = [] then rep ++ c :: pyReplace pat rep cs
      else if pyStartsWith (c :: cs) pat then
        rep ++ pyReplace pat rep (List.drop (pat.length - 1) cs)
      else c :: pyReplace pat rep cs := by
  have hirr : pyReplaceAux pat rep (cs.length + 1) (List.drop (pat.length - 1) cs)
      = pyReplace pat rep (List.drop (pat.length - 1) cs) :=
    pyReplaceAux_irrel pat rep (cs.length + 1) _ _
      (Nat.lt_succ_of_le (by simp [List.length_drop]))
      (Nat.lt_succ_self _)
  show pyReplaceAux pat rep (cs.length + 1 + 1) (c :: cs) = _
  rw [pyReplaceAux, hirr]
  rfl

theorem pyReplace_append_self (pat rep t : Str) (h : pat ≠ []) :
    pyReplace pat rep (pat ++ t) = rep ++ pyReplace pat rep t := by
  cases pat with
  | nil => exact absurd rfl h
  | cons p ps =>
    rw [List.cons_append, pyReplace_cons]
    rw [if_neg (by simp), if_pos]
    · have hl : (p :: ps).length - 1 = ps.length := by simp
      rw [hl, List.drop_left]
    · exact pyStartsWith_append_self (p :: ps) t

theorem pyReplace_of_no_space {pat rep s : Str} (hp : ' ' ∈ pat)
    (hs : ∀ a ∈ s, a ≠ ' ') : pyReplace pat rep s = s := by
  have hpat : pat ≠ [] := by rintro rfl; simp at hp
  induction s with
  | nil => rw [pyReplace_nil, if_neg hpat]
  | cons c cs ih =>
    have hstart : pyStartsWith (c :: cs) pat = false := by
      cases hsw : pyStartsWith (c :: cs) pat
      · rfl
      · exact absurd rfl (hs ' ' (pyStartsWith_mem hsw ' ' hp)).symm.elim
    rw [pyReplace_cons, if_neg hpat, if_neg (by simp [hstart])]
    rw [ih (fun a ha => hs a (List.mem_cons_of_mem c ha))]

/-! ## Configuration-store lemmas -/

theorem cfgGet_set_self (cfg : Cfg) (k v : Str) : cfgGet (cfgSet cfg k v) k = some v := by
  simp [cfgGet, cfgSet, List.find?]

theorem cfg_find_filter (k k' : Str) (h : k' ≠ k) (l : Cfg) :
    (l.filter (fun p => !(p.1 == k))).find? (fun p => p.1 == k') =
      l.find? (fun p => p.1 == k') := by
  induction l with
  | nil => rfl
  | cons a l ih =>
    by_cases hak : a.1 = k
    · have h1 : (a.1 == k) = true := by simp [hak]
      have h2 : (a.1 == k') = false := by simp [hak]; exact fun he => (h he.symm).elim
      simp [List.filter_cons, h1, List.find?, h2, ih]
    · have h1 : (a.1 == k) = false := by simp [hak]
      by_cases hak' : a.1 = k'
      · have h2 : (a.1 == k') = true := by simp [hak']
        simp [List.filter_cons, h1, List.find?, h2]
      · have h2 : (a.1 == k') = false := by simp [hak']
        simp [List.filter_cons, h1, List.find?, h2, ih]

theorem cfgGet_set_ne (cfg : Cfg) (k k' v : Str) (h : k' ≠ k) :
    cfgGet (cfgSet cfg k v) k' = cfgGet cfg k' := by
  have h2 : (k == k') = false := by simp; exact fun he => (h he.symm).elim
  simp only [cfgGet, cfgSet, List.find?, h2]
  rw [cfg_find_filter k k' h]

theorem cfgGet_unset_self (cfg : Cfg) (k : Str) : cfgGet (cfgUnset cfg k) k = none := by
  have h1 : (cfg.filter (fun p => !(p.1 == k))).find? (fun p => p.1 == k) = none := by
    rw [List.find?_eq_none]
    intro p hp
    have := List.of_mem_filter hp
    simpa using this
  unfold cfgGet cfgUnset
  rw [h1]
  rfl

theorem cfgGet_unset_ne (cfg : Cfg) (k k' : Str) (h : k' ≠ k) :
    cfgGet (cfgUnset cfg k) k' = cfgGet cfg k' := by
  simp only [cfgGet, cfgUnset]
  rw [cfg_find_filter k k' h]

/-! ## C7: branch-parent round trip -/

/-- C7 (confirmed): for every configuration, branch name and (git-valid)
parent name, recording the parent and then reading it back returns
exactly that parent name; `cfgSet` overwrites any prior value. -/
theorem c7_record_parent_round_trip (cfg : Cfg) (branch parent : Str)
    (h : validBranchName parent) :
    get_branch_parent (set_branch_parent cfg branch parent) branch = some parent := by
  have hnows : ∀ a ∈ parent, isPySpace a = false := h.2
  have hnospace : ∀ a ∈ parent, a ≠ ' ' := by
    intro a ha he
    have := hnows a ha
    rw [he] at this
    simp [isPySpace] at this
  unfold get_branch_parent set_branch_parent
  rw [cfgGet_set_self]
  have hstrip : pyStrip (parentMarker ++ parent) = parentMarker ++ parent :=
    pyStrip_marker_append h
  simp only [hstrip]
  rw [if_pos (by simp [parentMarker]), if_pos (pyStartsWith_append_self _ _)]
  rw [pyReplace_append_self _ _ _ (by simp [parentMarker])]
  rw [pyReplace_of_no_space (by decide) hnospace, List.nil_append]
  rw [pyStrip_of_no_space hnows]

/-- Witness for C7 at a concrete input. -/
theorem c7_record_parent_round_trip_witness :
    validBranchName ("main".toList) ∧
      get_branch_parent (set_branch_parent [] ("feature-x".toList) ("main".toList))
        ("feature-x".toList) = some ("main".toList) :=
  ⟨by decide, c7_record_parent_round_trip [] ("feature-x".toList) ("main".toList) (by decide)⟩

/-! ## C10: loading the intervention record -/

/-- C10 counterexample: the claim as stated (no whitespace stripping in the
stashed comparison) fails on a stored value `"true "`: the code reports
`stashed = true` while the un-stripped lowercased value differs from
`"true"`. -/
theorem c10_claim_fails_on_padded_value : ¬ c10ClaimAt c10Cex := by
  intro h
  exact absurd (h.2 c10Rec (by decide)) (by decide)

/-- C10 (corrected): the record is absent exactly when the intervened-branch
key is unset or whitespace-only; when present, each field is the stored
string stripped of surrounding whitespace (missing keys yield empty
strings), and `stashed` holds exactly when the stripped, lowercased stored
value is `"true"`. -/
theorem c10_metadata_load_with_strip (cfg : Cfg) :
    (get_intervene_metadata cfg = none ↔
      (cfgGet cfg kIntBranch = none ∨ pyStrip ((cfgGet cfg kIntBranch).getD []) = [])) ∧
    ∀ r, get_intervene_metadata cfg = some r →
      r.intervened = pyStrip ((cfgGet cfg kIntBranch).getD []) ∧
      r.original = pyStrip ((cfgGet cfg kIntOrig).getD []) ∧
      r.stashed = (pyLower (pyStrip ((cfgGet cfg kIntStash).getD [])) == "true".toList) := by
  cases hb : cfgGet cfg kIntBranch with
  | none => simp [get_intervene_metadata, hb]
  | some bv =>
    by_cases hs : pyStrip bv = []
    · simp [get_intervene_metadata, hb, hs]
    · constructor
      · simp [get_intervene_metadata, hb, hs]
      · intro r hr
        simp only [get_intervene_metadata, hb, if_neg hs] at hr
        obtain rfl := (Option.some.injEq _ _).mp hr.symm
        simp [hb]

/-- Witness for C10 at a concrete configuration holding all three keys. -/
theorem c10_metadata_load_with_strip_witness :
    get_intervene_metadata [(kIntBranch, "b".toList), (kIntOrig, "main".toList),
        (kIntStash, "True".toList)] =
      some { intervened := "b".toList, original := "main".toList, stashed := true } ∧
    ({ intervened := "b".toList, original := "main".toList, stashed := true} :
        InterveneMeta).stashed =
      (pyLower (pyStrip ((cfgGet [(kIntBranch, "b".toList), (kIntOrig, "main".toList),
        (kIntStash, "True".toList)] kIntStash).getD [])) == "true".toList) :=
  ⟨by decide,
   ((c10_metadata_load_with_strip [(kIntBranch, "b".toList), (kIntOrig, "main".toList),
      (kIntStash, "True".toList)]).2 _ (by decide)).2.2⟩

/-! ## C8: the worktree registry never names the main checkout -/

theorem gwpLoop_ne_root (root bn : Str) :
    ∀ (lines : List Str) (cur : Option Str), gwpLoop root bn lines cur ≠ some root := by
  intro lines
  induction lines with
  | nil => intro cur; simp [gwpLoop]
  | cons line rest ih =>
    intro cur
    rw [gwpLoop]
    split
    · exact ih _
    · split
      · split
        · split
          · exact ih _
          · rename_i hcur
            intro hc
            rw [hc] at hcur
            simp at hcur
        · exact ih _
      · exact ih _

theorem pySplit1Tail_of_append (pre t : Str) (hp : ' ' ∉ pre) :
    pySplit1Tail (pre ++ (' ' :: t)) = t := by
  induction pre with
  | nil => simp [pySplit1Tail]
  | cons c cs ih =>
    have hc : c ≠ ' ' := fun he => hp (he ▸ List.mem_cons_self c cs)
    rw [List.cons_append, pySplit1Tail, if_neg hc]
    exact ih (fun hm => hp (List.mem_cons_of_mem c hm))

theorem gawLoop_mem (root : Str) :
    ∀ (lines : List Str) (cur : Option Str) (bp : Str × Str),
      bp ∈ gawLoop root lines cur →
        bp.2 ≠ root ∧ ∃ line ∈ lines,
          pyStartsWith line ("branch refs/heads/".toList) = true ∧
          bp.1 = pyReplace ("refs/heads/".toList) [] (pySplit1Tail line) := by
  intro lines
  induction lines with
  | nil => intro cur bp h; simp [gawLoop] at h
  | cons line rest ih =>
    intro cur bp h
    rw [gawLoop] at h
    by_cases h1 : pyStartsWith line ("worktree ".toList) = true
    · rw [if_pos h1] at h
      obtain ⟨hne, l, hl, hprop⟩ := ih _ bp h
      exact ⟨hne, l, List.mem_cons_of_mem _ hl, hprop⟩
    · rw [if_neg h1] at h
      by_cases h2 : (pyStartsWith line ("branch ".toList) && optTruthy cur) = true
      · rw [if_pos h2, List.mem_append] at h
        rcases h with h | h
        · by_cases h3 : pyStartsWith (pySplit1Tail line) ("refs/heads/".toList) = true
          · rw [if_pos h3] at h
            by_cases h4 : ((cur.getD []) == root) = true
            · rw [if_pos h4] at h
              simp at h
            · rw [if_neg h4] at h
              obtain rfl : bp = (pyReplace ("refs/heads/".toList) [] (pySplit1Tail line),
                  cur.getD []) := by simpa using h
              refine ⟨by simpa using h4, line, List.mem_cons_self _ _, ?_, rfl⟩
              have hb : pyStartsWith line ("branch ".toList) = true :=
                ((Bool.and_eq_true _ _).mp h2).1
              obtain ⟨t, rfl⟩ := pyStartsWith_exists hb
              have hsplit : pySplit1Tail ("branch ".toList ++ t) = t := by
                have he : ("branch ".toList : Str) = "branch".toList ++ (' ' :: []) := by
                  decide
                rw [he, List.append_assoc, List.singleton_append,
                  pySplit1Tail_of_append _ _ (by decide)]
              rw [hsplit] at h3
              have he2 : ("branch refs/heads/".toList : Str) =
                  "branch ".toList ++ "refs/heads/".toList := by decide
              rw [he2, pyStartsWith_append_both]
              exact h3
          · rw [if_neg h3] at h
            simp at h
        · obtain ⟨hne, l, hl, hprop⟩ := ih _ bp h
          exact ⟨hne, l, List.mem_cons_of_mem _ hl, hprop⟩
      · rw [if_neg h2] at h
        obtain ⟨hne, l, hl, hprop⟩ := ih _ bp h
        exact ⟨hne, l, List.mem_cons_of_mem _ hl, hprop⟩

/-- C8 counterexample: the legacy `main.py` resolver lacks the
main-checkout exclusion, so for a porcelain listing whose first (main
checkout) entry is bound to the requested branch it returns the main
checkout's own root path. -/
theorem c8_legacy_path_for_returns_main_root :
    ¬ (∀ (porcelain root bn : Str),
        (pySplitNl (pyStrip porcelain)).head? = some ("worktree ".toList ++ root) →
        MainPy.get_worktree_path porcelain bn ≠ some root) := by
  intro h
  exact h c8Porc ("/r".toList) ("main".toList) (by decide) (by decide)

/-- C8 (corrected): `claudebg.py`'s `get_worktree_path` never returns the
main checkout root, and every entry `get_all_worktrees` returns has a path
different from the main checkout root and stems from a porcelain line
binding a local (`refs/heads/`) branch reference; the legacy `main.py`
resolver lacks the root exclusion. -/
theorem c8_registry_excludes_main_root :
    (∀ (porcelain root bn : Str), get_worktree_path porcelain root bn ≠ some root) ∧
    (∀ (porcelain root : Str) (bp : Str × Str), bp ∈ get_all_worktrees porcelain root →
      bp.2 ≠ root ∧ ∃ line ∈ pySplitNl (pyStrip porcelain),
        pyStartsWith line ("branch refs/heads/".toList) = true ∧
        bp.1 = pyReplace ("refs/heads/".toList) [] (pySplit1Tail line)) :=
  ⟨fun porcelain root bn =>
     gwpLoop_ne_root root bn (pySplitNl (pyStrip porcelain)) none,
   fun porcelain root bp h => gawLoop_mem root (pySplitNl (pyStrip porcelain)) none bp h⟩

/-- Witness for C8 on a two-entry porcelain listing. -/
theorem c8_registry_excludes_main_root_witness :
    (("b".toList, "/w/b".toList) ∈ get_all_worktrees c8PorcTwo ("/r".toList)) ∧
    ("/w/b".toList ≠ "/r".toList ∧ ∃ line ∈ pySplitNl (pyStrip c8PorcTwo),
      pyStartsWith line ("branch refs/heads/".toList) = true ∧
      ("b".toList : Str) = pyReplace ("refs/heads/".toList) [] (pySplit1Tail line)) :=
  ⟨by decide, c8_registry_excludes_main_root.2 c8PorcTwo ("/r".toList)
    ("b".toList, "/w/b".toList) (by decide)⟩

/-! ## C5: wrong-directory precondition -/

/-- C5 (confirmed): started inside a satellite worktree, both `intervene`
and `spinout` exit with status 1 before performing any mutation — the
final state is exactly the initial one. -/
theorem c5_wrong_directory_no_mutation (st : St) (B : Str)
    (sy aoI seI aoS aaS : Bool) (h : st.inWorktree = true) :
    intervene B sy aoI seI st = .error (1, st) ∧
    spinout aoS aaS st = .error (1, st) := by
  constructor
  · unfold intervene
    rw [if_pos h]
  · unfold spinout
    rw [if_pos h]

/-- Witness for C5 at a concrete in-worktree state. -/
theorem c5_wrong_directory_no_mutation_witness :
    c5St.inWorktree = true ∧
      (intervene ("b".toList) false false false c5St = .error (1, c5St) ∧
       spinout false false c5St = .error (1, c5St)) :=
  ⟨by decide, c5_wrong_directory_no_mutation c5St ("b".toList) false false false false false rfl⟩

/-! ## C2: destroy without force on an unmerged branch -/

/-- C2 (confirmed): for a branch with a worktree whose recorded-or-discovered
parent resolves, `destroy` without force on an unmerged branch exits with
status 1 and the final state is exactly the initial one: the worktree, the
local branch and the remote branch are untouched. -/
theorem c2_destroy_unmerged_no_mutation (st : St) (B parent : Str) (wt : WT)
    (hwt : findWorktree st B = some wt)
    (hpar : resolvedParent st B = some parent)
    (hmerged : is_branch_merged st B parent = false) :
    destroy B false st = .error (1, st) := by
  unfold destroy
  rw [hwt, hpar]
  simp [hmerged]

/-- Witness for C2 at a concrete state (`b` has recorded parent `main` and
is not merged). -/
theorem c2_destroy_unmerged_no_mutation_witness :
    (findWorktree c2St ("b".toList) = some ⟨"b".toList, "/w/b".toList, none⟩ ∧
     resolvedParent c2St ("b".toList) = some ("main".toList) ∧
     is_branch_merged c2St ("b".toList) ("main".toList) = false) ∧
    destroy ("b".toList) false c2St = .error (1, c2St) :=
  ⟨⟨by decide, by decide, by decide⟩,
   c2_destroy_unmerged_no_mutation c2St ("b".toList) ("main".toList)
     ⟨"b".toList, "/w/b".toList, none⟩ (by decide) (by decide) (by decide)⟩

/-! ## C1: fate of the patch file on a failed apply

In the source, both `intervene` and `spinout` wrap `git apply` in
`try/except/finally`; the `finally` block unconditionally unlinks the
patch file, and in Python it runs even when the `except` handler re-raises
`SystemExit`.  So on a failed apply the file is deleted immediately after
its path was printed as preserved, contradicting the source's own comment
("Clean up patch file only if apply succeeded") and its printed message. -/

/-- C1 (code bug): evaluated at states where the captured patch fails to
apply, both operations report the patch path (event `patchReported`) and
then delete the patch file — the disk holds no patch afterwards, while the
claim (and the code's own comment and message) say it must be retained. -/
theorem c1_patch_file_deleted_despite_failure_report :
    (exitCodeOf (intervene ("b".toList) false false false c1StI) = some 1 ∧
     Ev.patchReported 0 ∈ (finalStOf (intervene ("b".toList) false false false c1StI)).trace ∧
     (finalStOf (intervene ("b".toList) false false false c1StI)).disk = []) ∧
    (exitCodeOf (spinout false false c1StS) = none ∧
     Ev.patchReported 0 ∈ (finalStOf (spinout false false c1StS)).trace ∧
     (finalStOf (spinout false false c1StS)).disk = []) := by
  decide

/-! ## C6: a mismatched record is not consumed

Stage lemmas: the worktree-creation, patch-application and plain-ending
stages of `spinout` never write the configuration and never emit a stash
pop, so a spinout that discarded its record behaves as a plain spinout:
the persisted record is left untouched and no stash pop is attempted. -/

theorem spinoutApplyStep_cfg (ao : Bool) (wtDir : Str) (c2 : Option Nat) (s : St) :
    (spinoutApplyStep ao wtDir c2 s).cfg = s.cfg := by
  unfold spinoutApplyStep
  repeat' split
  all_goals simp [unlinkPatchFile, emit]

theorem spinoutApplyStep_pop (ao : Bool) (wtDir : Str) (c2 : Option Nat) (s : St) :
    Ev.stashPop ∈ (spinoutApplyStep ao wtDir c2 s).trace → Ev.stashPop ∈ s.trace := by
  unfold spinoutApplyStep
  repeat' split
  all_goals intro h
  all_goals simpa [unlinkPatchFile, emit] using h

theorem spinoutPlainEnd_cfg (aa : Bool) (tempB : Str) (s : St) :
    (finalStOf (spinoutPlainEnd aa tempB s)).cfg = s.cfg := by
  unfold spinoutPlainEnd
  repeat' split
  all_goals simp [finalStOf, checkoutS, emit]

theorem spinoutPlainEnd_pop (aa : Bool) (tempB : Str) (s : St) :
    Ev.stashPop ∈ (finalStOf (spinoutPlainEnd aa tempB s)).trace →
      Ev.stashPop ∈ s.trace := by
  unfold spinoutPlainEnd
  repeat' split
  all_goals intro h
  all_goals simpa [finalStOf, checkoutS, emit] using h

theorem spinoutWtApply_cfg (ao : Bool) (cur : Str) (c2 : Option Nat) (st2 : St) :
    (spinoutWtApply ao cur c2 st2).cfg = st2.cfg := by
  unfold spinoutWtApply
  rw [spinoutApplyStep_cfg]
  simp [wtAddS, emit]

theorem spinoutWtApply_pop (ao : Bool) (cur : Str) (c2 : Option Nat) (st2 : St) :
    Ev.stashPop ∈ (spinoutWtApply ao cur c2 st2).trace →
      Ev.stashPop ∈ st2.trace := by
  intro h
  have h2 := spinoutApplyStep_pop ao (mkWorktreePath st2.gitRoot cur) c2
    (wtAddS cur (mkWorktreePath st2.gitRoot cur) st2) h
  simpa [wtAddS, emit] using h2

theorem spinoutTail_none_c6 (ao aa : Bool) (cur tempB : Str) (c2 : Option Nat)
    (sX : St) (C : Cfg) (T : List Ev)
    (hcfg : sX.cfg = C)
    (hpop : Ev.stashPop ∈ sX.trace → Ev.stashPop ∈ T) :
    (finalStOf (spinoutTail ao aa cur tempB none c2 sX)).cfg = C ∧
    (Ev.stashPop ∈ (finalStOf (spinoutTail ao aa cur tempB none c2 sX)).trace →
      Ev.stashPop ∈ T) := by
  unfold spinoutTail
  by_cases hadd : wtAddOk cur sX = true
  · rw [if_pos hadd]
    constructor
    · rw [spinoutPlainEnd_cfg, spinoutWtApply_cfg]
      exact hcfg
    · intro h
      exact hpop (spinoutWtApply_pop _ _ _ _ (spinoutPlainEnd_pop _ _ _ h))
  · rw [if_neg hadd]
    exact ⟨hcfg, hpop⟩

/-- C6 (corrected, amended): when a record exists but the current branch
differs from its `intervened_branch`, the record is discarded for the run
and `spinout` proceeds as a plain spinout: the persisted record is not
consumed (the configuration is left exactly as it was — in particular it
is not cleared) and no stash pop is attempted (any stash-pop event in the
final trace was already in the starting trace).  A checkout of a branch
that merely *equals* the record's `original_branch` can still occur
through the plain temporary-branch selection (see the counterexample). -/
theorem c6_mismatched_record_not_consumed (st : St) (m : InterveneMeta) (ao aa : Bool)
    (hm : get_intervene_metadata st.cfg = some m)
    (hne : st.currentBranch ≠ m.intervened) :
    (finalStOf (spinout ao aa st)).cfg = st.cfg ∧
    (Ev.stashPop ∈ (finalStOf (spinout ao aa st)).trace →
      Ev.stashPop ∈ st.trace) := by
  unfold spinout
  by_cases hiw : st.inWorktree = true
  · rw [if_pos hiw]
    exact ⟨rfl, fun h => h⟩
  rw [if_neg hiw]
  simp only [hm, ne_eq, hne, not_false_eq_true, if_true]
  by_cases hfw : (findWorktree st st.currentBranch).isSome = true
  · rw [if_pos hfw]
    exact ⟨rfl, fun h => h⟩
  rw [if_neg hfw]
  by_cases hmw : mainDirty st = true
  · rw [if_pos hmw]
    by_cases hq : st.mainWork.getD [] ++ st.mainUnt ≠ []
    · rw [if_pos hq]
      by_cases ht : (plainTempChoice (resetMain (writePatch st.gitRoot
          (st.mainWork.getD [] ++ st.mainUnt) st).1) st.currentBranch).getD [] = []
      · rw [if_pos ht]
        by_cases hb : branch_exists (resetMain (writePatch st.gitRoot
            (st.mainWork.getD [] ++ st.mainUnt) st).1) tempSpinoutBranch = true
        · rw [if_pos hb]
          exact ⟨rfl, fun h => by
            simpa [resetMain, writePatch, emit, finalStOf] using h⟩
        · rw [if_neg hb]
          refine spinoutTail_none_c6 _ _ _ _ _ _ _ _
            (by simp [checkoutNewS, resetMain, writePatch, emit]) ?_
          intro h
          simpa [checkoutNewS, resetMain, writePatch, emit] using h
      · rw [if_neg ht]
        by_cases hb : branch_exists (resetMain (writePatch st.gitRoot
            (st.mainWork.getD [] ++ st.mainUnt) st).1) ((plainTempChoice (resetMain (writePatch st.gitRoot
              (st.mainWork.getD [] ++ st.mainUnt) st).1) st.currentBranch).getD []) = true
        · rw [if_pos hb]
          refine spinoutTail_none_c6 _ _ _ _ _ _ _ _
            (by simp [checkoutS, resetMain, writePatch, emit]) ?_
          intro h
          simpa [checkoutS, resetMain, writePatch, emit] using h
        · rw [if_neg hb]
          exact ⟨by simp [resetMain, writePatch, emit, finalStOf], fun h => by
            simpa [resetMain, writePatch, emit, finalStOf] using h⟩
    · rw [if_neg hq]
      by_cases ht : (plainTempChoice (resetMain (emit (Ev.captureEmpty st.gitRoot) st))
          st.currentBranch).getD [] = []
      · rw [if_pos ht]
        by_cases hb : branch_exists (resetMain (emit (Ev.captureEmpty st.gitRoot) st))
            tempSpinoutBranch = true
        · rw [if_pos hb]
          exact ⟨rfl, fun h => by simpa [resetMain, emit, finalStOf] using h⟩
        · rw [if_neg hb]
          refine spinoutTail_none_c6 _ _ _ _ _ _ _ _
            (by simp [checkoutNewS, resetMain, emit]) ?_
          intro h
          simpa [checkoutNewS, resetMain, emit] using h
      · rw [if_neg ht]
        by_cases hb : branch_exists (resetMain (emit (Ev.captureEmpty st.gitRoot) st))
            ((plainTempChoice (resetMain (emit (Ev.captureEmpty st.gitRoot) st))
              st.currentBranch).getD []) = true
        · rw [if_pos hb]
          refine spinoutTail_none_c6 _ _ _ _ _ _ _ _
            (by simp [checkoutS, resetMain, emit]) ?_
          intro h
          simpa [checkoutS, resetMain, emit] using h
        · rw [if_neg hb]
          exact ⟨by simp [resetMain, emit, finalStOf], fun h => by
            simpa [resetMain, emit, finalStOf] using h⟩
  · rw [if_neg hmw]
    by_cases ht : (plainTempChoice st st.currentBranch).getD [] = []
    · rw [if_pos ht]
      by_cases hb : branch_exists st tempSpinoutBranch = true
      · rw [if_pos hb]
        exact ⟨rfl, fun h => h⟩
      · rw [if_neg hb]
        refine spinoutTail_none_c6 _ _ _ _ _ _ _ _
          (by simp [checkoutNewS, emit]) ?_
        intro h
        simpa [checkoutNewS, emit] using h
    · rw [if_neg ht]
      by_cases hb : branch_exists st
          ((plainTempChoice st st.currentBranch).getD []) = true
      · rw [if_pos hb]
        refine spinoutTail_none_c6 _ _ _ _ _ _ _ _
          (by simp [checkoutS, emit]) ?_
        intro h
        simpa [checkoutS, emit] using h
      · rw [if_neg hb]
        exact ⟨rfl, fun h => h⟩

/-- Witness for C6 at a concrete mismatched-record state. -/
theorem c6_mismatched_record_not_consumed_witness :
    (get_intervene_metadata c6St.cfg =
        some { intervened := "b".toList, original := "main".toList, stashed := false } ∧
      c6St.currentBranch ≠ ("b".toList : Str)) ∧
    ((finalStOf (spinout false false c6St)).cfg = c6St.cfg ∧
      (Ev.stashPop ∈ (finalStOf (spinout false false c6St)).trace →
        Ev.stashPop ∈ c6St.trace)) :=
  ⟨⟨by decide, by decide⟩,
   c6_mismatched_record_not_consumed c6St
     { intervened := "b".toList, original := "main".toList, stashed := false }
     false false (by decide) (by decide)⟩

/-- C6 counterexample: the claim as stated says no checkout of the record's
`original_branch` occurs; on `c6St` the discarded record's original branch
is `main`, and plain spinout's temporary-branch selection checks out
`main` anyway. -/
theorem c6_checkout_of_original_branch_can_occur :
    (get_intervene_metadata c6St.cfg).map (fun m => m.original) = some ("main".toList) ∧
    (get_intervene_metadata c6St.cfg).map (fun m => m.intervened) ≠
      some c6St.currentBranch ∧
    Ev.checkout ("main".toList) ∈ (finalStOf (spinout false false c6St)).trace := by
  decide

/-! ## C4: capture precedes the destructive steps

The checker `trOk` demands, left to right, that every `reset` be preceded
by a patch write or an empty-capture observation for the same directory,
and every worktree removal by one of those or a clean observation for the
removed path.  `trOk` is first proved for every execution of the two
operations; a decomposition lemma then turns it into the positional
statement of the claim. -/

theorem trOk_append (t1 : List Ev) : ∀ (seen t2 : List Ev),
    trOk seen (t1 ++ t2) = (trOk seen t1 && trOk (seen ++ t1) t2) := by
  induction t1 with
  | nil => intro seen t2; simp [trOk]
  | cons e t ih =>
    intro seen t2
    show (destructiveGuard seen e && trOk (seen ++ [e]) (t ++ t2)) = _
    rw [ih (seen ++ [e]) t2]
    simp [trOk, List.append_assoc, Bool.and_assoc]

theorem trOk_harmless (t : List Ev) : ∀ (seen : List Ev),
    (∀ e ∈ t, notDestructive e = true) → trOk seen t = true := by
  induction t with
  | nil => intro seen _; rfl
  | cons e t ih =>
    intro seen h
    have he := h e (List.mem_cons_self _ _)
    have hg : destructiveGuard seen e = true := by
      cases e <;> simp_all [destructiveGuard, notDestructive]
    simp [trOk, hg, ih _ (fun x hx => h x (List.mem_cons_of_mem _ hx))]

theorem trOk_append_harmless (t1 t2 seen : List Ev) (h1 : trOk seen t1 = true)
    (h2 : ∀ e ∈ t2, notDestructive e = true) : trOk seen (t1 ++ t2) = true := by
  rw [trOk_append]
  simp [h1, trOk_harmless t2 _ h2]

theorem trOk_decomp (pre : List Ev) : ∀ (seen t : List Ev) (e : Ev) (post : List Ev),
    trOk seen t = true → t = pre ++ e :: post →
      destructiveGuard (seen ++ pre) e = true := by
  induction pre with
  | nil =>
    intro seen t e post h ht
    subst ht
    simp only [List.nil_append, trOk, Bool.and_eq_true] at h
    simpa using h.1
  | cons x preT ih =>
    intro seen t e post h ht
    subst ht
    simp only [List.cons_append, trOk, Bool.and_eq_true] at h
    have hx := ih (seen ++ [x]) _ e post h.2 rfl
    simpa [List.append_assoc] using hx

theorem interveneFinish_trace (B o : Str) (stashed se : Bool) (s : St) :
    ∃ t, (finalStOf (interveneFinish B o stashed se s)).trace = s.trace ++ t ∧
      ∀ e ∈ t, notDestructive e = true := by
  cases se
  · exact ⟨[], by simp [interveneFinish, finalStOf], by simp⟩
  · exact ⟨[Ev.execWorkspace], by simp [interveneFinish, finalStOf, emit],
      by simp [notDestructive]⟩

theorem spinoutApplyStep_trace (ao : Bool) (wtDir : Str) (c2 : Option Nat) (s : St) :
    ∃ t, (spinoutApplyStep ao wtDir c2 s).trace = s.trace ++ t ∧
      ∀ e ∈ t, notDestructive e = true := by
  cases c2 with
  | none => exact ⟨[], by simp [spinoutApplyStep], by simp⟩
  | some id =>
    by_cases hd : diskHas s id = true
    · cases ao
      · exact ⟨[Ev.applyPatch wtDir id false, Ev.patchReported id, Ev.unlinkPatch id],
          by simp [spinoutApplyStep, hd, unlinkPatchFile, emit],
          by simp [notDestructive]⟩
      · exact ⟨[Ev.applyPatch wtDir id true, Ev.unlinkPatch id],
          by simp [spinoutApplyStep, hd, unlinkPatchFile, emit],
          by simp [notDestructive]⟩
    · exact ⟨[], by simp [spinoutApplyStep, hd], by simp⟩

theorem spinoutRestore_trace (aa : Bool) (m : InterveneMeta) (s : St) :
    ∃ t, (finalStOf (spinoutRestore aa m s)).trace = s.trace ++ t ∧
      ∀ e ∈ t, notDestructive e = true := by
  unfold spinoutRestore
  by_cases hst : m.stashed = true
  · cases hfind : s.stash.find? (fun e => pyContains e.msg stashMarker) with
    | some e =>
      cases aa
      · exact ⟨[Ev.stashPop], by simp [hst, hfind, finalStOf, emit],
          by simp [notDestructive]⟩
      · exact ⟨[Ev.stashPop, Ev.execWorkspace],
          by simp [hst, hfind, finalStOf, emit], by simp [notDestructive]⟩
    | none =>
      cases aa
      · exact ⟨[], by simp [hst, hfind, finalStOf], by simp⟩
      · exact ⟨[Ev.execWorkspace], by simp [hst, hfind, finalStOf, emit],
          by simp [notDestructive]⟩
  · cases aa
    · exact ⟨[], by simp [hst, finalStOf], by simp⟩
    · exact ⟨[Ev.execWorkspace], by simp [hst, finalStOf, emit],
        by simp [notDestructive]⟩

theorem spinoutPlainEnd_trace (aa : Bool) (tempB : Str) (s : St) :
    ∃ t, (finalStOf (spinoutPlainEnd aa tempB s)).trace = s.trace ++ t ∧
      ∀ e ∈ t, notDestructive e = true := by
  unfold spinoutPlainEnd
  by_cases htb : (tempB == tempSpinoutBranch) = true
  · cases hmb : get_main_branch s with
    | some mb =>
      by_cases hbe : branch_exists s mb = true
      · cases aa
        · exact ⟨[Ev.checkout mb, Ev.branchDelete tempSpinoutBranch],
            by simp [htb, hmb, hbe, finalStOf, checkoutS, emit],
            by simp [notDestructive]⟩
        · exact ⟨[Ev.checkout mb, Ev.branchDelete tempSpinoutBranch, Ev.execWorkspace],
            by simp [htb, hmb, hbe, finalStOf, checkoutS, emit],
            by simp [notDestructive]⟩
      · exact ⟨[], by simp [htb, hmb, hbe, finalStOf], by simp⟩
    | none =>
      cases aa
      · exact ⟨[], by simp [htb, hmb, finalStOf], by simp⟩
      · exact ⟨[Ev.execWorkspace], by simp [htb, hmb, finalStOf, emit],
          by simp [notDestructive]⟩
  · cases aa
    · exact ⟨[], by simp [htb, finalStOf], by simp⟩
    · exact ⟨[Ev.execWorkspace], by simp [htb, finalStOf, emit],
        by simp [notDestructive]⟩

theorem spinoutWtApply_trace (ao : Bool) (cur : Str) (c2 : Option Nat) (st2 : St) :
    ∃ t, (spinoutWtApply ao cur c2 st2).trace = st2.trace ++ t ∧
      ∀ e ∈ t, notDestructive e = true := by
  obtain ⟨t1, h1, hh1⟩ := spinoutApplyStep_trace ao (mkWorktreePath st2.gitRoot cur) c2
    (wtAddS cur (mkWorktreePath st2.gitRoot cur) st2)
  refine ⟨Ev.wtAdd cur (mkWorktreePath st2.gitRoot cur) :: t1, ?_, ?_⟩
  · show (spinoutApplyStep ao (mkWorktreePath st2.gitRoot cur) c2
      (wtAddS cur (mkWorktreePath st2.gitRoot cur) st2)).trace = _
    rw [h1]
    simp [wtAddS, emit]
  · intro e he
    rcases List.mem_cons.mp he with rfl | he
    · rfl
    · exact hh1 e he

theorem spinoutTail_trace (ao aa : Bool) (cur tempB : Str)
    (md : Option InterveneMeta) (c2 : Option Nat) (sX : St) :
    ∃ t, (finalStOf (spinoutTail ao aa cur tempB md c2 sX)).trace = sX.trace ++ t ∧
      ∀ e ∈ t, notDestructive e = true := by
  unfold spinoutTail
  by_cases hadd : wtAddOk cur sX = true
  · rw [if_pos hadd]
    obtain ⟨t1, h1, hh1⟩ := spinoutWtApply_trace ao cur c2 sX
    cases md with
    | none =>
      dsimp only
      obtain ⟨t2, h2, hh2⟩ := spinoutPlainEnd_trace aa tempB (spinoutWtApply ao cur c2 sX)
      refine ⟨t1 ++ t2, ?_, ?_⟩
      · rw [h2, h1, List.append_assoc]
      · intro e he
        rcases List.mem_append.mp he with he | he
        exacts [hh1 e he, hh2 e he]
    | some m =>
      dsimp only
      by_cases horig : tempB ≠ m.original
      · rw [if_pos horig]
        by_cases hbe : branch_exists (spinoutWtApply ao cur c2 sX) m.original = true
        · rw [if_pos hbe]
          obtain ⟨t2, h2, hh2⟩ := spinoutRestore_trace aa m
            (checkoutS m.original (spinoutWtApply ao cur c2 sX))
          refine ⟨t1 ++ Ev.checkout m.original :: t2, ?_, ?_⟩
          · rw [h2]
            simp only [checkoutS, emit]
            rw [h1]
            simp [List.append_assoc]
          · intro e he
            rcases List.mem_append.mp he with he | he
            · exact hh1 e he
            · rcases List.mem_cons.mp he with rfl | he
              · rfl
              · exact hh2 e he
        · rw [if_neg hbe]
          exact ⟨t1, by simp [finalStOf, h1], hh1⟩
      · rw [if_neg horig]
        obtain ⟨t2, h2, hh2⟩ := spinoutRestore_trace aa m (spinoutWtApply ao cur c2 sX)
        refine ⟨t1 ++ t2, ?_, ?_⟩
        · rw [h2, h1, List.append_assoc]
        · intro e he
          rcases List.mem_append.mp he with he | he
          exacts [hh1 e he, hh2 e he]
  · rw [if_neg hadd]
    exact ⟨[], by simp [finalStOf], by simp⟩

theorem spinout_trOk (ao aa : Bool) (st : St) (htr : st.trace = []) :
    trOk [] (finalStOf (spinout ao aa st)).trace = true := by
  have tail : ∀ (tempB : Str) (md : Option InterveneMeta) (c2 : Option Nat) (sX : St),
      trOk [] sX.trace = true →
      trOk [] (finalStOf (spinoutTail ao aa st.currentBranch tempB md c2 sX)).trace
        = true := by
    intro tempB md c2 sX hok
    obtain ⟨t, ht, hh⟩ := spinoutTail_trace ao aa st.currentBranch tempB md c2 sX
    rw [ht]
    exact trOk_append_harmless _ _ _ hok hh
  unfold spinout
  by_cases hiw : st.inWorktree = true
  · rw [if_pos hiw]; simp [finalStOf, htr, trOk]
  rw [if_neg hiw]
  by_cases hfw : (findWorktree st st.currentBranch).isSome = true
  · simp only [if_pos hfw]; simp [finalStOf, htr, trOk]
  simp only [if_neg hfw]
  by_cases hmw : mainDirty st = true
  · rw [if_pos hmw]
    by_cases hq : st.mainWork.getD [] ++ st.mainUnt ≠ []
    · rw [if_pos hq]
      split
      · split
        · simp [finalStOf, resetMain, writePatch, emit, htr, trOk,
            destructiveGuard, capFor]
        · exact tail _ _ _ _ (by simp [checkoutNewS, resetMain, writePatch, emit,
            htr, trOk, destructiveGuard, capFor])
      · split
        · exact tail _ _ _ _ (by simp [checkoutS, resetMain, writePatch, emit,
            htr, trOk, destructiveGuard, capFor])
        · simp [finalStOf, resetMain, writePatch, emit, htr, trOk,
            destructiveGuard, capFor]
    · rw [if_neg hq]
      split
      · split
        · simp [finalStOf, resetMain, emit, htr, trOk, destructiveGuard, capFor]
        · exact tail _ _ _ _ (by simp [checkoutNewS, resetMain, emit, htr, trOk,
            destructiveGuard, capFor])
      · split
        · exact tail _ _ _ _ (by simp [checkoutS, resetMain, emit, htr, trOk,
            destructiveGuard, capFor])
        · simp [finalStOf, resetMain, emit, htr, trOk, destructiveGuard, capFor]
  · rw [if_neg hmw]
    split
    · split
      · simp [finalStOf, htr, trOk]
      · exact tail _ _ _ _ (by simp [checkoutNewS, emit, htr, trOk, destructiveGuard])
    · split
      · exact tail _ _ _ _ (by simp [checkoutS, emit, htr, trOk, destructiveGuard])
      · simp [finalStOf, htr, trOk]

theorem trOk_mono (t : List Ev) : ∀ (seen seen' : List Ev),
    (∀ e ∈ seen, e ∈ seen') → trOk seen t = true → trOk seen' t = true := by
  induction t with
  | nil => intro seen seen' _ _; rfl
  | cons e t ih =>
    intro seen seen' hsub h
    simp only [trOk, Bool.and_eq_true] at h ⊢
    constructor
    · cases e <;> simp_all [destructiveGuard]
      · obtain ⟨x, hx, hcap⟩ := h.1
        exact ⟨x, hsub x hx, hcap⟩
      · obtain ⟨x, hx, hcap⟩ := h.1
        exact ⟨x, hsub x hx, hcap⟩
    · refine ih (seen ++ [e]) (seen' ++ [e]) ?_ h.2
      intro x hx
      rcases List.mem_append.mp hx with hx | hx
      · exact List.mem_append.mpr (Or.inl (hsub x hx))
      · exact List.mem_append.mpr (Or.inr hx)

theorem trOk_prefix_harmless (pfx X : List Ev)
    (hh : ∀ e ∈ pfx, notDestructive e = true) (hX : trOk [] X = true) :
    trOk [] (pfx ++ X) = true := by
  rw [trOk_append]
  simp only [Bool.and_eq_true]
  exact ⟨trOk_harmless pfx [] hh,
    trOk_mono X [] ([] ++ pfx) (by simp) hX⟩

theorem trOk_error_leaf (S : St) (pfx core : List Ev)
    (hs : S.trace = pfx ++ core)
    (hh : ∀ e ∈ pfx, notDestructive e = true)
    (hcore : trOk [] core = true) :
    trOk [] S.trace = true := by
  rw [hs]
  exact trOk_prefix_harmless pfx core hh hcore

theorem trOk_finish_leaf (B o : Str) (stashed se : Bool) (s : St) (pfx core : List Ev)
    (hs : s.trace = pfx ++ core)
    (hh : ∀ e ∈ pfx, notDestructive e = true)
    (hcore : ∀ t2, (∀ e ∈ t2, notDestructive e = true) → trOk [] (core ++ t2) = true) :
    trOk [] (finalStOf (interveneFinish B o stashed se s)).trace = true := by
  obtain ⟨t, ht, hht⟩ := interveneFinish_trace B o stashed se s
  rw [ht, hs, List.append_assoc]
  exact trOk_prefix_harmless pfx _ hh (hcore t hht)

theorem interveneTail_trOk (B o : Str) (stashed ao se : Bool) (wt : WT)
    (st1 : St) (pfx : List Ev) (hpfx : st1.trace = pfx)
    (hh : ∀ e ∈ pfx, notDestructive e = true) :
    trOk [] (finalStOf (interveneTail B o stashed ao se wt st1)).trace = true := by
  unfold interveneTail
  by_cases hw : has_unstaged_changes wt.work = true
  · rw [if_pos hw]
    by_cases hc : wt.work.getD [] ≠ []
    · rw [if_pos hc]
      dsimp only
      by_cases hbe : branch_exists (gitWorktreeRemove wt.path (resetWt wt.path
          (writePatch wt.path (wt.work.getD []) st1).1)) B = true
      · rw [if_pos hbe]
        by_cases hdh : diskHas (checkoutS B (gitWorktreeRemove wt.path (resetWt wt.path
              (writePatch wt.path (wt.work.getD []) st1).1)))
            (writePatch wt.path (wt.work.getD []) st1).2 = true
        · rw [if_pos hdh]
          cases hao : ao
          · rw [if_neg (by simp)]
            simp only [finalStOf]
            apply trOk_error_leaf _ pfx
              ([Ev.patchWrite wt.path st1.nextPatch (wt.work.getD []), Ev.reset wt.path,
                Ev.wtRemove wt.path, Ev.checkout B,
                Ev.applyPatch st1.gitRoot st1.nextPatch false,
                Ev.patchReported st1.nextPatch, Ev.unlinkPatch st1.nextPatch])
              ?_ hh ?_
            · simp [gitWorktreeRemove, resetWt, writePatch, checkoutS,
                unlinkPatchFile, emit, hpfx]
            · simp [trOk, destructiveGuard, capFor, capOrCleanFor, notDestructive]
          · rw [if_pos rfl]
            apply trOk_finish_leaf _ _ _ _ _ pfx
              ([Ev.patchWrite wt.path st1.nextPatch (wt.work.getD []), Ev.reset wt.path,
                Ev.wtRemove wt.path, Ev.checkout B,
                Ev.applyPatch st1.gitRoot st1.nextPatch true,
                Ev.unlinkPatch st1.nextPatch])
              ?_ hh ?_
            · simp [gitWorktreeRemove, resetWt, writePatch, checkoutS,
                unlinkPatchFile, emit, hpfx]
            · intro t2 h2
              refine trOk_append_harmless _ _ _ ?_ h2
              simp [trOk, destructiveGuard, capFor, capOrCleanFor, notDestructive]
        · rw [if_neg hdh]
          apply trOk_finish_leaf _ _ _ _ _ pfx
            ([Ev.patchWrite wt.path st1.nextPatch (wt.work.getD []), Ev.reset wt.path,
              Ev.wtRemove wt.path, Ev.checkout B])
            ?_ hh ?_
          · simp [gitWorktreeRemove, resetWt, writePatch, checkoutS, emit, hpfx]
          · intro t2 h2
            refine trOk_append_harmless _ _ _ ?_ h2
            simp [trOk, destructiveGuard, capFor, capOrCleanFor]
      · rw [if_neg hbe]
        simp only [finalStOf]
        apply trOk_error_leaf _ pfx
          ([Ev.patchWrite wt.path st1.nextPatch (wt.work.getD []), Ev.reset wt.path,
            Ev.wtRemove wt.path])
          ?_ hh ?_
        · simp [gitWorktreeRemove, resetWt, writePatch, emit, hpfx]
        · simp [trOk, destructiveGuard, capFor, capOrCleanFor]
    · rw [if_neg hc]
      dsimp only
      by_cases hbe : branch_exists (gitWorktreeRemove wt.path (resetWt wt.path
          (emit (Ev.captureEmpty wt.path) st1))) B = true
      · rw [if_pos hbe]
        apply trOk_finish_leaf _ _ _ _ _ pfx
          ([Ev.captureEmpty wt.path, Ev.reset wt.path, Ev.wtRemove wt.path, Ev.checkout B])
          ?_ hh ?_
        · simp [gitWorktreeRemove, resetWt, checkoutS, emit, hpfx]
        · intro t2 h2
          refine trOk_append_harmless _ _ _ ?_ h2
          simp [trOk, destructiveGuard, capFor, capOrCleanFor]
      · rw [if_neg hbe]
        simp only [finalStOf]
        apply trOk_error_leaf _ pfx
          ([Ev.captureEmpty wt.path, Ev.reset wt.path, Ev.wtRemove wt.path])
          ?_ hh ?_
        · simp [gitWorktreeRemove, resetWt, emit, hpfx]
        · simp [trOk, destructiveGuard, capFor, capOrCleanFor]
  · rw [if_neg hw]
    dsimp only
    by_cases hbe : branch_exists (gitWorktreeRemove wt.path
        (emit (Ev.cleanDir wt.path) st1)) B = true
    · rw [if_pos hbe]
      apply trOk_finish_leaf _ _ _ _ _ pfx
        ([Ev.cleanDir wt.path, Ev.wtRemove wt.path, Ev.checkout B])
        ?_ hh ?_
      · simp [gitWorktreeRemove, checkoutS, emit, hpfx]
      · intro t2 h2
        refine trOk_append_harmless _ _ _ ?_ h2
        simp [trOk, destructiveGuard, capFor, capOrCleanFor]
    · rw [if_neg hbe]
      simp only [finalStOf]
      apply trOk_error_leaf _ pfx
        ([Ev.cleanDir wt.path, Ev.wtRemove wt.path])
        ?_ hh ?_
      · simp [gitWorktreeRemove, emit, hpfx]
      · simp [trOk, destructiveGuard, capFor, capOrCleanFor]

theorem intervene_trOk (B : Str) (sy ao se : Bool) (st : St) (htr : st.trace = []) :
    trOk [] (finalStOf (intervene B sy ao se st)).trace = true := by
  unfold intervene
  by_cases hiw : st.inWorktree = true
  · rw [if_pos hiw]; simp [finalStOf, htr, trOk]
  rw [if_neg hiw]
  cases hfw : findWorktree st B with
  | none => simp [finalStOf, htr, trOk]
  | some wt =>
    dsimp only
    by_cases hstop : (mainDirty st && !sy) = true
    · rw [if_pos hstop]; simp [finalStOf, htr, trOk]
    rw [if_neg hstop]
    by_cases hmw : mainDirty st = true
    · rw [if_pos hmw]
      exact interveneTail_trOk _ _ _ _ _ _ _ [Ev.stashPush stashMarker]
        (by cases hms : st.mainWork.isSome <;> simp [stashPushS, emit, hms, htr])
        (by simp [notDestructive])
    · rw [if_neg hmw]
      exact interveneTail_trOk _ _ _ _ _ _ _ [] htr (by simp)

/-- C4 (confirmed): in every execution of `intervene` and of `spinout`
(started with an empty trace), whenever a hard reset of some directory
appears in the trace, an earlier event witnesses that the capture step for
that directory durably wrote the patch file or found the diff empty; and
whenever a worktree removal appears, an earlier event witnesses one of
those or that the directory was observed clean. -/
theorem c4_capture_precedes_destructive_steps (st : St) (B : Str)
    (sy aoI seI aoS aaS : Bool) (htr : st.trace = []) :
    (∀ pre d post,
        (finalStOf (intervene B sy aoI seI st)).trace = pre ++ Ev.reset d :: post →
        ∃ ev ∈ pre, capFor d ev = true) ∧
    (∀ pre p post,
        (finalStOf (intervene B sy aoI seI st)).trace = pre ++ Ev.wtRemove p :: post →
        ∃ ev ∈ pre, capOrCleanFor p ev = true) ∧
    (∀ pre d post,
        (finalStOf (spinout aoS aaS st)).trace = pre ++ Ev.reset d :: post →
        ∃ ev ∈ pre, capFor d ev = true) ∧
    (∀ pre p post,
        (finalStOf (spinout aoS aaS st)).trace = pre ++ Ev.wtRemove p :: post →
        ∃ ev ∈ pre, capOrCleanFor p ev = true) := by
  have hI := intervene_trOk B sy aoI seI st htr
  have hS := spinout_trOk aoS aaS st htr
  refine ⟨?_, ?_, ?_, ?_⟩
  · intro pre d post hdec
    have hg := trOk_decomp pre [] _ _ post hI hdec
    simpa [destructiveGuard, List.any_eq_true] using hg
  · intro pre p post hdec
    have hg := trOk_decomp pre [] _ _ post hI hdec
    simpa [destructiveGuard, List.any_eq_true] using hg
  · intro pre d post hdec
    have hg := trOk_decomp pre [] _ _ post hS hdec
    simpa [destructiveGuard, List.any_eq_true] using hg
  · intro pre p post hdec
    have hg := trOk_decomp pre [] _ _ post hS hdec
    simpa [destructiveGuard, List.any_eq_true] using hg

/-- Witness for C4: intervening on a dirty worktree at a concrete state,
the reset of the worktree is preceded by the patch write for it. -/
theorem c4_capture_precedes_destructive_steps_witness :
    c4St.trace = [] ∧
    (∃ ev ∈ [Ev.patchWrite ("/w/b".toList) 0 ("d".toList)],
      capFor ("/w/b".toList) ev = true) :=
  ⟨rfl,
   (c4_capture_precedes_destructive_steps c4St ("b".toList) true true false true false
      rfl).1
     [Ev.patchWrite ("/w/b".toList) 0 ("d".toList)] ("/w/b".toList)
     [Ev.wtRemove ("/w/b".toList), Ev.checkout ("b".toList),
      Ev.applyPatch ("/r".toList) 0 true, Ev.unlinkPatch 0]
     (by decide)⟩

/-! ## C9: a failed apply in `intervene` leaves the persisted record alone -/

/-- C9 (confirmed): when `intervene` reaches the apply step and the apply
fails, the process exits with status 1 before `save_intervene_metadata`
runs, so the configuration — in particular any record left by an earlier
intervene — is exactly what it was before the operation began. -/
theorem c9_failed_apply_preserves_record (st : St) (B : Str) (wt : WT) (p : Str)
    (sy se : Bool)
    (hIW : st.inWorktree = false)
    (hwt : findWorktree st B = some wt)
    (hwork : wt.work = some p) (hp : p ≠ [])
    (hmain : st.mainWork = none)
    (hB : B ∈ st.branches) :
    exitCodeOf (intervene B sy false se st) = some 1 ∧
    (finalStOf (intervene B sy false se st)).cfg = st.cfg := by
  by_cases hstop : (mainDirty st && !sy) = true
  · constructor <;> simp [intervene, hIW, hwt, hstop, exitCodeOf, finalStOf]
  · by_cases hd : mainDirty st = true
    · have hsy : sy = true := by
        cases sy
        · exact absurd (by rw [hd]; rfl) hstop
        · rfl
      subst hsy
      constructor <;>
        simp [intervene, interveneTail, hIW, hwt, hstop, hd, hmain, hwork, hp, hB,
          has_unstaged_changes, stashPushS, writePatch, resetWt, emit,
          gitWorktreeRemove, checkoutS, interveneFinish, branch_exists, diskHas,
          diskGet, unlinkPatchFile, applyDelta, exitCodeOf, finalStOf]
    · constructor <;>
        simp [intervene, interveneTail, hIW, hwt, hstop, hd, hmain, hwork, hp, hB,
          has_unstaged_changes, stashPushS, writePatch, resetWt, emit,
          gitWorktreeRemove, checkoutS, interveneFinish, branch_exists, diskHas,
          diskGet, unlinkPatchFile, applyDelta, exitCodeOf, finalStOf]

/-- Witness for C9: `intervene b` over a state holding a record for an
earlier intervene of `old`, with a failing apply; the record survives. -/
theorem c9_failed_apply_preserves_record_witness :
    (c9St.inWorktree = false ∧
     findWorktree c9St ("b".toList) = some ⟨"b".toList, "/w/b".toList, some ("d".toList)⟩ ∧
     c9St.mainWork = none ∧ ("b".toList) ∈ c9St.branches) ∧
    (exitCodeOf (intervene ("b".toList) false false false c9St) = some 1 ∧
     (finalStOf (intervene ("b".toList) false false false c9St)).cfg = c9St.cfg) :=
  ⟨⟨by decide, by decide, by decide, by decide⟩,
   c9_failed_apply_preserves_record c9St ("b".toList)
     ⟨"b".toList, "/w/b".toList, some ("d".toList)⟩ ("d".toList) false false
     (by decide) (by decide) (by decide) (by decide) (by decide) (by decide)⟩

/-! ## C3: the intervene/spinout round trip -/

theorem find?_append_none {α : Type} (p : α → Bool) (l1 l2 : List α)
    (h : ∀ a ∈ l1, p a = false) : (l1 ++ l2).find? p = l2.find? p := by
  induction l1 with
  | nil => rfl
  | cons a l ih =>
    rw [List.cons_append, List.find?, h a (List.mem_cons_self a l)]
    exact ih (fun x hx => h x (List.mem_cons_of_mem a hx))

theorem get_intervene_after_save (B O : Str) (s : Bool) (cfg : Cfg)
    (hB : validBranchName B) (hO : validBranchName O) :
    get_intervene_metadata (save_intervene_metadata B O s cfg) =
      some { intervened := B, original := O, stashed := s } := by
  have h1 : cfgGet (save_intervene_metadata B O s cfg) kIntBranch = some B := by
    unfold save_intervene_metadata
    rw [cfgGet_set_ne _ _ _ _ (by decide), cfgGet_set_ne _ _ _ _ (by decide),
      cfgGet_set_self]
  have h2 : cfgGet (save_intervene_metadata B O s cfg) kIntOrig = some O := by
    unfold save_intervene_metadata
    rw [cfgGet_set_ne _ _ _ _ (by decide), cfgGet_set_self]
  have h3 : cfgGet (save_intervene_metadata B O s cfg) kIntStash =
      some (if s then "True".toList else "False".toList) := by
    unfold save_intervene_metadata
    rw [cfgGet_set_self]
  unfold get_intervene_metadata
  rw [h1, h2, h3]
  dsimp only [Option.getD]
  rw [pyStrip_of_no_space hB.2, if_neg hB.1, pyStrip_of_no_space hO.2]
  cases s <;> simp <;> decide

theorem get_intervene_after_clear (cfg : Cfg) :
    get_intervene_metadata (clear_intervene_metadata cfg) = none := by
  have h1 : cfgGet (clear_intervene_metadata cfg) kIntBranch = none := by
    unfold clear_intervene_metadata
    rw [cfgGet_unset_ne _ _ _ (by decide), cfgGet_unset_ne _ _ _ (by decide),
      cfgGet_unset_self]
  unfold get_intervene_metadata
  rw [h1]

/-- C3 (corrected): round-trip for tracked changes.  Starting from the
main checkout on branch `O` whose uncommitted content `Q` consists
entirely of tracked changes (no untracked files: `mainUnt = []`), with a
worktree for `B` carrying uncommitted content `P`, a successful
`intervene B` followed by a successful `spinout` leaves a worktree for `B`
whose working tree equals `P`, the main checkout back on `O` with working
tree `Q`, and no persisted `InterventionRecord`.  The tracked-only
restriction is forced by the source: `git stash push` is run without `-u`,
so an untracked part of `Q` stays in the working tree, rides through the
checkout, is swept into `spinout`'s `git add -A` capture and ends up
inside `B`'s new worktree (see the counterexample below). -/
theorem c3_intervene_spinout_round_trip
    (B O path P Q root : Str) (br : List Str) (ws : List WT)
    (sts : List StashEntry) (cfg : Cfg) (rb : List Str) (mp : List (Str × Str))
    (hB : validBranchName B) (hO : validBranchName O) (hBO : O ≠ B)
    (hBbr : B ∈ br) (hObr : O ∈ br)
    (hP : P ≠ []) (hQ : Q ≠ [])
    (hws : ∀ w ∈ ws, (w.branch == B) = false) :
    ∃ st1 st2,
      intervene B true true false
        { inWorktree := false, gitRoot := root, currentBranch := O, branches := br,
          worktrees := ws ++ [⟨B, path, some P⟩], mainWork := some Q, mainUnt := [],
          stash := sts, cfg := cfg, remoteBranches := rb, mergedPairs := mp,
          disk := [], nextPatch := 0, trace := [] } = Except.ok st1 ∧
      spinout true false st1 = Except.ok st2 ∧
      (findWorktree st2 B).map (fun w => w.work) = some (some P) ∧
      st2.currentBranch = O ∧
      st2.mainWork = some Q ∧
      get_intervene_metadata st2.cfg = none := by
  have hI : intervene B true true false
      { inWorktree := false, gitRoot := root, currentBranch := O, branches := br,
        worktrees := ws ++ [⟨B, path, some P⟩], mainWork := some Q, mainUnt := [],
        stash := sts, cfg := cfg, remoteBranches := rb, mergedPairs := mp,
        disk := [], nextPatch := 0, trace := [] } =
      Except.ok
        { inWorktree := false, gitRoot := root, currentBranch := B, branches := br,
          worktrees := ((ws.map (fun w => if w.path == path then { w with work := none } else w)).filter (fun w => !(w.path == path))),
          mainWork := some P, stash := ⟨stashMarker, Q⟩ :: sts,
          cfg := save_intervene_metadata B O true cfg,
          remoteBranches := rb, mergedPairs := mp, disk := [], nextPatch := 1,
          trace := [Ev.stashPush stashMarker, Ev.patchWrite path 0 P, Ev.reset path,
            Ev.wtRemove path, Ev.checkout B, Ev.applyPatch root 0 true,
            Ev.unlinkPatch 0] } := by
    have hBc : br.contains B = true := List.elem_eq_true_of_mem hBbr
    have hfind0 : (ws ++ [(⟨B, path, some P⟩ : WT)]).find? (fun w => w.branch == B) =
        some ⟨B, path, some P⟩ := by
      rw [find?_append_none _ _ _ hws]
      simp [List.find?]
    simp [intervene, interveneTail, interveneFinish, findWorktree, has_unstaged_changes,
      mainDirty, stashPushS, writePatch, resetWt, emit, gitWorktreeRemove, branch_exists,
      checkoutS, diskHas, diskGet, unlinkPatchFile, applyDelta, hfind0, hP, hBc, hBbr]
  have hS : spinout true false
      { inWorktree := false, gitRoot := root, currentBranch := B, branches := br,
        worktrees := ((ws.map (fun w => if w.path == path then { w with work := none } else w)).filter (fun w => !(w.path == path))),
        mainWork := some P, stash := ⟨stashMarker, Q⟩ :: sts,
        cfg := save_intervene_metadata B O true cfg,
        remoteBranches := rb, mergedPairs := mp, disk := [], nextPatch := 1,
        trace := [Ev.stashPush stashMarker, Ev.patchWrite path 0 P, Ev.reset path,
          Ev.wtRemove path, Ev.checkout B, Ev.applyPatch root 0 true,
          Ev.unlinkPatch 0] } =
      Except.ok
        { inWorktree := false, gitRoot := root, currentBranch := O, branches := br,
          worktrees := (⟨B, mkWorktreePath root B, some P⟩ :: (((ws.map (fun w => if w.path == path then { w with work := none } else w)).filter (fun w => !(w.path == path))).map (fun w => if w.path == mkWorktreePath root B then { w with work := applyDelta w.work P } else w))),
          mainWork := some Q, stash := sts,
          cfg := clear_intervene_metadata (save_intervene_metadata B O true cfg),
          remoteBranches := rb, mergedPairs := mp, disk := [], nextPatch := 2,
          trace := [Ev.stashPush stashMarker, Ev.patchWrite path 0 P, Ev.reset path,
            Ev.wtRemove path, Ev.checkout B, Ev.applyPatch root 0 true,
            Ev.unlinkPatch 0, Ev.patchWrite root 1 P, Ev.reset root, Ev.checkout O,
            Ev.wtAdd B (mkWorktreePath root B),
            Ev.applyPatch (mkWorktreePath root B) 1 true, Ev.unlinkPatch 1,
            Ev.stashPop] } := by
    have hOc : br.contains O = true := List.elem_eq_true_of_mem hObr
    have hBc : br.contains B = true := List.elem_eq_true_of_mem hBbr
    have hNoB : ∀ x ∈ ws,
        (if x.path = path then ({ branch := x.branch, path := x.path, work := none } : WT) else x).branch ≠ B := by
      intro x hx
      have hb : (if x.path = path then ({ branch := x.branch, path := x.path, work := none } : WT) else x).branch = x.branch := by
        split <;> rfl
      rw [hb]
      intro hEq
      have hxx := hws x hx
      rw [hEq] at hxx
      simp at hxx
    have hcont : pyContains stashMarker stashMarker = true := by decide
    have hC1 : ¬ ∃ x ∈ ws,
        ¬(if x.path = path then ({ branch := x.branch, path := x.path, work := none } : WT) else x).path = path ∧
          (if x.path = path then ({ branch := x.branch, path := x.path, work := none } : WT) else x).branch = B := by
      rintro ⟨x, hx, -, hb⟩
      exact hNoB x hx hb
    have hC2 : ∀ x ∈ ws,
        ¬(if x.path = path then ({ branch := x.branch, path := x.path, work := none } : WT) else x).path = path →
          ¬(if x.path = path then ({ branch := x.branch, path := x.path, work := none } : WT) else x).branch = B :=
      fun x hx _ => hNoB x hx
    simp [spinout, spinoutTail, spinoutWtApply, spinoutApplyStep, spinoutRestore,
      findWorktree, has_unstaged_changes, mainDirty, writePatch, resetMain, emit,
      branch_exists, checkoutS, wtAddOk, wtAddS, diskHas, diskGet, unlinkPatchFile,
      applyDelta, get_intervene_after_save B O true cfg hB hO, hP, hOc, hBc, hBbr,
      hObr, hBO, hO.1, hcont, List.eraseP_cons]
    rw [if_neg hC1, if_pos hC2]
  refine ⟨_, _, hI, hS, ?_, rfl, rfl, get_intervene_after_clear _⟩
  simp [findWorktree, List.find?]

theorem c3_intervene_spinout_round_trip_witness :
    ∃ st1 st2,
      intervene "fx".toList true true false
        { inWorktree := false, gitRoot := "/r".toList, currentBranch := "main".toList,
          branches := ["main".toList, "fx".toList],
          worktrees := [] ++ [⟨"fx".toList, "/w/fx".toList, some "p".toList⟩],
          mainWork := some "q".toList, stash := [], cfg := [], remoteBranches := [],
          mergedPairs := [], disk := [], nextPatch := 0, trace := [] } = Except.ok st1 ∧
      spinout true false st1 = Except.ok st2 ∧
      (findWorktree st2 "fx".toList).map (fun w => w.work) = some (some "p".toList) ∧
      st2.currentBranch = "main".toList ∧
      st2.mainWork = some "q".toList ∧
      get_intervene_metadata st2.cfg = none :=
  c3_intervene_spinout_round_trip "fx".toList "main".toList "/w/fx".toList
    "p".toList "q".toList "/r".toList ["main".toList, "fx".toList] [] [] [] [] []
    (by decide) (by decide) (by decide) (by decide) (by decide) (by decide)
    (by decide) (by simp)

/-- C3 counterexample: with untracked files in the main checkout the
round trip fails as the original claim states it.  On `c3Cex` the main
checkout's uncommitted state `Q` is the untracked file `u`; `intervene b`
then `spinout` both succeed, yet afterwards the worktree for `b` holds
`pu` — `P` plus the migrated untracked part — instead of `P`, and the
main checkout is entirely clean instead of holding `Q`: `git stash push`
(no `-u`) left `u` in the working tree, the checkout carried it along,
and `spinout`'s `git add -A` capture swept it into the patch applied
inside the new worktree. -/
theorem c3_untracked_files_break_round_trip :
    exitCodeOf (intervene ("b".toList) true true false c3Cex) = none ∧
    exitCodeOf (spinout true false
      (finalStOf (intervene ("b".toList) true true false c3Cex))) = none ∧
    (finalStOf (spinout true false
      (finalStOf (intervene ("b".toList) true true false c3Cex)))).currentBranch =
      "main".toList ∧
    (findWorktree (finalStOf (spinout true false
        (finalStOf (intervene ("b".toList) true true false c3Cex)))) ("b".toList)).map
      (fun w => w.work) = some (some ("pu".toList)) ∧
    (finalStOf (spinout true false
      (finalStOf (intervene ("b".toList) true true false c3Cex)))).mainWork = none ∧
    (finalStOf (spinout true false
      (finalStOf (intervene ("b".toList) true true false c3Cex)))).mainUnt = [] := by
  decide

end ClaudebgModel
